import Mathlib

/-
  Verification development for the SSIS metadata extractor repository.

  The definitions below are a shallow embedding of the repository code:
  * `sql_parser.py` (class EnhancedSQLParser): SQL text analysis producing
    per-column provenance maps, together with the regular-expression
    machinery the Python code relies on (modelled by a small backtracking
    matcher with Python semantics: leftmost search, greedy/lazy
    quantifiers, capture groups, word boundaries, lookahead);
  * `app.py` (`SSISMetadataExtractor._trace_column_lineage_topology`): the
    Kahn-style topological traversal of a dataflow task and the UnionAll
    provenance transfer rule.

  Python strings are modelled as `List Char`; the per-instance parse cache
  (`self._parse_cache`) is threaded explicitly; machine integers that may
  go negative (paren depth, in-degree counters) are `Int`.  Recursion that
  Python bounds only by input size is modelled with an explicit fuel
  argument supplied by a wrapper; fuel exhaustion returns a neutral value
  and is unreachable for the wrapper-selected fuel on the inputs evaluated
  here.
-/

abbrev Str := List Char

/-! ### Python string primitives -/

def pyToUpper (s : Str) : Str := s.map Char.toUpper

def pyIsSpace (c : Char) : Bool :=
  c = ' ' || c = '\t' || c = '\n' || c = '\r' || c = '\x0b' || c = '\x0c'

def pyLStrip (s : Str) : Str := s.dropWhile pyIsSpace

def pyRStrip (s : Str) : Str := (s.reverse.dropWhile pyIsSpace).reverse

def pyStrip (s : Str) : Str := pyLStrip (pyRStrip s)

/-- Python `s.strip('[]')`. -/
def pyStripBrackets (s : Str) : Str :=
  let f := fun c => c = '[' || c = ']'
  ((s.dropWhile f).reverse.dropWhile f).reverse

/-- Python slice `s[i:j]` for nonnegative bounds. -/
def pySlice (s : Str) (i j : Nat) : Str := (s.drop i).take (j - i)

def isWordChar (c : Char) : Bool := c.isAlphanum || c = '_'

def strStarts : Str → Str → Bool
  | [], _ => true
  | _ :: _, [] => false
  | p :: ps, c :: cs => p = c && strStarts ps cs

def strEnds (pat s : Str) : Bool := strStarts pat.reverse s.reverse

def containsSub (pat : Str) : Str → Bool
  | [] => pat.isEmpty
  | c :: cs => strStarts pat (c :: cs) || containsSub pat cs

/-- Python `s.split()` (split on whitespace runs, dropping empties). -/
def pySplitWsAux : Str → Str → List Str
  | [], acc => if acc.isEmpty then [] else [acc.reverse]
  | c :: cs, acc =>
      if pyIsSpace c then
        if acc.isEmpty then pySplitWsAux cs [] else acc.reverse :: pySplitWsAux cs []
      else pySplitWsAux cs (c :: acc)

def pySplitWs (s : Str) : List Str := pySplitWsAux s []

/-- Python `s.split(sep)` for a single-character separator (keeps empties). -/
def pySplitCharAux (sep : Char) : Str → Str → List Str
  | [], acc => [acc.reverse]
  | c :: cs, acc =>
      if c = sep then acc.reverse :: pySplitCharAux sep cs []
      else pySplitCharAux sep cs (c :: acc)

def pySplitChar (sep : Char) (s : Str) : List Str := pySplitCharAux sep s []

/-- Python `s.split(sep, 1)` for a single-character separator: `none` when
`sep` does not occur. -/
def pySplitOnce (sep : Char) : Str → Option (Str × Str)
  | [] => none
  | c :: cs =>
      if c = sep then some ([], cs)
      else (pySplitOnce sep cs).map (fun p => (c :: p.1, p.2))

/-- Python `s.split(sub)` for a multi-character separator (used as
`"SUBQUERY::X".split("::")`). -/
def pySplitSubAux (sep : Str) : Nat → Str → Str → List Str
  | 0, s, acc => [acc.reverse ++ s]
  | fuel + 1, s, acc =>
      match s with
      | [] => [acc.reverse]
      | c :: cs =>
          if strStarts sep (c :: cs) && !sep.isEmpty then
            acc.reverse :: pySplitSubAux sep fuel ((c :: cs).drop sep.length) []
          else pySplitSubAux sep fuel cs (c :: acc)

def pySplitSub (sep : Str) (s : Str) : List Str := pySplitSubAux sep (s.length + 1) s []

/-- Python `s.replace('.', '', 1)`. -/
def pyDropFirstDot : Str → Str
  | [] => []
  | c :: cs => if c = '.' then cs else c :: pyDropFirstDot cs

/-- Python `s.isdigit()` (ASCII digits; empty string is false). -/
def pyIsDigitStr (s : Str) : Bool := !s.isEmpty && s.all Char.isDigit

def joinStr (sep : Str) : List Str → Str
  | [] => []
  | [x] => x
  | x :: xs => x ++ sep ++ joinStr sep xs

/-- Insertion-ordered set add (Python `set.add`; iteration order of small
Python sets is unspecified, every set evaluated concretely below is a
singleton, and multi-element sets are otherwise consumed through
`sorted`). -/
def setAdd (l : List Str) (x : Str) : List Str := if l.contains x then l else l ++ [x]

def setUnion (l : List Str) (xs : List Str) : List Str := xs.foldl setAdd l

/-- Python `set(...)` over a list: first-occurrence deduplication. -/
def pySetOf (xs : List Str) : List Str := xs.foldl setAdd []

/-- Lexicographic (code point) order on strings, as Python compares them. -/
def pyStrLe : Str → Str → Bool
  | [], _ => true
  | _ :: _, [] => false
  | a :: as_, b :: bs =>
      if a = b then pyStrLe as_ bs else decide (a.val < b.val)

def insertSorted (x : Str) : List Str → List Str
  | [] => [x]
  | y :: ys => if pyStrLe x y then x :: y :: ys else y :: insertSorted x ys

/-- Python `sorted` on a list of strings (stable insertion sort). -/
def pySortedStr (xs : List Str) : List Str := xs.foldr insertSorted []

/-! ### Ordered association lists (Python `dict` with insertion order) -/

def alGet {α : Type} (m : List (Str × α)) (k : Str) : Option α :=
  (m.find? (fun p => p.1 = k)).map (fun p => p.2)

def alHas {α : Type} (m : List (Str × α)) (k : Str) : Bool :=
  m.any (fun p => p.1 = k)

/-- Python `d[k] = v`: overwrite in place, else append. -/
def alSet {α : Type} (m : List (Str × α)) (k : Str) (v : α) : List (Str × α) :=
  if alHas m k then m.map (fun p => if p.1 = k then (k, v) else p) else m ++ [(k, v)]

/-- Python `{**a, **b}`. -/
def alMerge {α : Type} (a b : List (Str × α)) : List (Str × α) :=
  b.foldl (fun m p => alSet m p.1 p.2) a

def alGetD {α : Type} (m : List (Str × α)) (k : Str) (d : α) : α := (alGet m k).getD d

/-! ### Regular-expression engine (Python `re` subset)

Each pattern used by `sql_parser.py` is encoded as an explicit `RE` value;
the matcher is a continuation-passing backtracking matcher, which gives
the same leftmost / greedy / lazy semantics as CPython `re`.  The fuel
argument only bounds the recursion; the wrapper supplies enough fuel for
every evaluation performed in this file. -/

inductive RE where
  | eps
  | cls (p : Char → Bool)
  | seq (a b : RE)
  | alt (a b : RE)
  | star (greedy : Bool) (a : RE)
  | opt (greedy : Bool) (a : RE)
  | grp (i : Nat) (a : RE)
  | look (a : RE)
  | bnd
  | eos

abbrev Caps := List (Nat × Nat × Nat)

def mrun (inp : Str) : Nat → RE → Nat → Caps → (Nat → Caps → Option (Nat × Caps)) → Option (Nat × Caps)
  | 0, _, _, _, _ => none
  | fuel + 1, re, pos, caps, k =>
      match re with
      | .eps => k pos caps
      | .cls p =>
          match inp.get? pos with
          | some c => if p c then k (pos + 1) caps else none
          | none => none
      | .seq a b => mrun inp fuel a pos caps (fun p cp => mrun inp fuel b p cp k)
      | .alt a b =>
          match mrun inp fuel a pos caps k with
          | some r => some r
          | none => mrun inp fuel b pos caps k
      | .star g a =>
          if g then
            match mrun inp fuel a pos caps (fun p cp => mrun inp fuel (.star g a) p cp k) with
            | some r => some r
            | none => k pos caps
          else
            match k pos caps with
            | some r => some r
            | none => mrun inp fuel a pos caps (fun p cp => mrun inp fuel (.star g a) p cp k)
      | .opt g a =>
          if g then
            match mrun inp fuel a pos caps k with
            | some r => some r
            | none => k pos caps
          else
            match k pos caps with
            | some r => some r
            | none => mrun inp fuel a pos caps k
      | .grp i a => mrun inp fuel a pos caps (fun p cp => k p ((i, pos, p) :: cp))
      | .look a =>
          match mrun inp fuel a pos caps (fun p cp => some (p, cp)) with
          | some _ => k pos caps
          | none => none
      | .bnd =>
          let before :=
            match pos with
            | 0 => false
            | p + 1 => match inp.get? p with | some c => isWordChar c | none => false
          let after := match inp.get? pos with | some c => isWordChar c | none => false
          if before != after then k pos caps else none
      | .eos => if pos = inp.length then k pos caps else none

def reFuel (inp : Str) : Nat := 256 * (inp.length + 4)

/-- Match `re` anchored at position `pos`; returns end position and captures. -/
def matchAt (inp : Str) (re : RE) (pos : Nat) : Option (Nat × Caps) :=
  mrun inp (reFuel inp) re pos [] (fun p cp => some (p, cp))

/-- Python `re.match` (anchored at 0). -/
def reMatch (inp : Str) (re : RE) : Option (Nat × Caps) := matchAt inp re 0

def searchFrom (inp : Str) (re : RE) : Nat → Nat → Option (Nat × Nat × Caps)
  | 0, _ => none
  | fuel + 1, start =>
      if start > inp.length then none
      else
        match matchAt inp re start with
        | some (e, cp) => some (start, e, cp)
        | none => searchFrom inp re fuel (start + 1)

/-- Python `re.search`: leftmost match as (start, stop, captures). -/
def reSearch (inp : Str) (re : RE) : Option (Nat × Nat × Caps) :=
  searchFrom inp re (inp.length + 2) 0

def finditerAux (inp : Str) (re : RE) : Nat → Nat → List (Nat × Nat × Caps)
  | 0, _ => []
  | fuel + 1, start =>
      if start > inp.length then []
      else
        match searchFrom inp re (inp.length + 2) start with
        | none => []
        | some (s, e, cp) =>
            (s, e, cp) :: finditerAux inp re fuel (if e > s then e else e + 1)

/-- Python `re.finditer` (non-overlapping successive matches). -/
def finditer (inp : Str) (re : RE) : List (Nat × Nat × Caps) :=
  finditerAux inp re (inp.length + 2) 0

/-- Group `i` of a match over `inp` (`none` when the group did not participate). -/
def getGrp (inp : Str) (cp : Caps) (i : Nat) : Option Str :=
  (cp.find? (fun t => t.1 = i)).map (fun t => pySlice inp t.2.1 t.2.2)

/-- Python `re.sub` with a constant replacement string. -/
def reSubSplice (inp : Str) (repl : Str) : Nat → List (Nat × Nat × Caps) → Str
  | pos, [] => inp.drop pos
  | pos, (s, e, _) :: rest => pySlice inp pos s ++ repl ++ reSubSplice inp repl e rest

def reSub (inp : Str) (re : RE) (repl : Str) : Str :=
  reSubSplice inp repl 0 (finditer inp re)

/-! Pattern constructors -/

def rchar (c : Char) : RE := .cls (fun x => x = c)

def rlit (s : Str) : RE := s.foldr (fun c acc => .seq (rchar c) acc) .eps

def rseq (l : List RE) : RE := l.foldr .seq .eps

def ralt : List RE → RE
  | [] => .eps
  | [r] => r
  | r :: rs => .alt r (ralt rs)

def rws : RE := .cls pyIsSpace
def rwsStar : RE := .star true rws
def rwsPlus : RE := .seq rws (.star true rws)
def rword : RE := .cls isWordChar
def rplus (r : RE) : RE := .seq r (.star true r)
def rplusLazy (r : RE) : RE := .seq r (.star false r)
/-- `.` under `re.DOTALL`. -/
def rdotAll : RE := .cls (fun _ => true)
/-- `.` without `re.DOTALL`. -/
def rdot : RE := .cls (fun c => c ≠ '\n')
/-- `[A-Z_]` under `re.IGNORECASE`. -/
def clsAlphaU : RE := .cls (fun c => c.isAlpha || c = '_')
/-- `\[[^\]]+\]` (a bracketed name). -/
def rbracketed : RE := rseq [rchar '[', rplus (.cls (fun c => c ≠ ']')), rchar ']']

/-! ### The regular expressions of `sql_parser.py`, encoded as `RE` values.

Inputs reaching these patterns have already been upper-cased by the code,
so `re.IGNORECASE` literals are encoded in upper case. -/

/-- `^\s*DECLARE\s+` (re.match, `_extract_ctes`). -/
def reDeclare : RE := rseq [rwsStar, rlit "DECLARE".toList, rwsPlus]

/-- `^\s*WITH\s+` (re.match, `_extract_ctes`). -/
def reWith : RE := rseq [rwsStar, rlit "WITH".toList, rwsPlus]

/-- `(\w+)\s+AS\s*\(` (`_extract_ctes` CTE header). -/
def reCteName : RE :=
  rseq [.grp 1 (rplus rword), rwsPlus, rlit "AS".toList, rwsStar, rchar '(']

/-- `\(\s*SELECT` (`_extract_derived_tables`). -/
def reParenSelect : RE := rseq [rchar '(', rwsStar, rlit "SELECT".toList]

/-- `(\w+)\s*$` (last word of the prefix, `_extract_derived_tables`). -/
def reLastWord : RE := rseq [.grp 1 (rplus rword), rwsStar, .eos]

/-- `^\s*(?:AS\s+)?(\w+)` (alias after a derived table). -/
def reAliasAfterParen : RE :=
  rseq [rwsStar, .opt true (rseq [rlit "AS".toList, rwsPlus]), .grp 1 (rplus rword)]

/-- `(?:FROM|JOIN)\s+(?:\[?[\w\.\[\]]+\]?\.)?(?:\[?[\w\.\[\]]+\]?\.)?(\[?[\w_]+\]?)(?:\s+(?:AS\s+)?(\w+))?`
(`_parse_table_aliases`). -/
def reTableAlias : RE :=
  let tblChar : RE := .cls (fun c => isWordChar c || c = '.' || c = '[' || c = ']')
  let schemaPart : RE :=
    rseq [.opt true (rchar '['), rplus tblChar, .opt true (rchar ']'), rchar '.']
  rseq [.alt (rlit "FROM".toList) (rlit "JOIN".toList), rwsPlus,
        .opt true schemaPart, .opt true schemaPart,
        .grp 1 (rseq [.opt true (rchar '['), rplus rword, .opt true (rchar ']')]),
        .opt true (rseq [rwsPlus, .opt true (rseq [rlit "AS".toList, rwsPlus]),
                         .grp 2 (rplus rword)])]

/-- `SELECT\s+` (`_extract_select_clause`). -/
def reSelectKw : RE := rseq [rlit "SELECT".toList, rwsPlus]

/-- `(?:\s+AS\s+|\s+)((?:\[[^\]]+\])|(?:[\w]+))\s*$` (`_parse_column_token` alias). -/
def reAliasTail : RE :=
  rseq [.alt (rseq [rwsPlus, rlit "AS".toList, rwsPlus]) rwsPlus,
        .grp 1 (.alt rbracketed (rplus rword)), rwsStar, .eos]

/-- `^((?:\[[^\]]+\])|(?:[\w]+))\s*\.\s*((?:\[[^\]]+\])|(?:[\w]+))$`
(qualified column in `decompose_expression`). -/
def reColMatch : RE :=
  rseq [.grp 1 (.alt rbracketed (rplus rword)), rwsStar, rchar '.', rwsStar,
        .grp 2 (.alt rbracketed (rplus rword)), .eos]

/-- `^((?:\[[^\]]+\])|(?:[\w]+))$` (bare word in `decompose_expression`). -/
def reSingleWord : RE := rseq [.grp 1 (.alt rbracketed (rplus rword)), .eos]

/-- `'[^']*'` (literal masking in `_extract_column_refs`). -/
def reQuoted : RE := rseq [rchar '\'', .star true (.cls (fun c => c ≠ '\'')), rchar '\'']

/-- `\d+`. -/
def reDigits : RE := rplus (.cls Char.isDigit)

/-- `(?:\[[^\]]+\]|\b[A-Z_][\w]*)\s*\.\s*(?:\[[^\]]+\]|[A-Z_][\w]*\b)`
(pattern 1 of `_extract_column_refs`, IGNORECASE). -/
def rePatternDot : RE :=
  rseq [.alt rbracketed (rseq [.bnd, clsAlphaU, .star true rword]),
        rwsStar, rchar '.', rwsStar,
        .alt rbracketed (rseq [clsAlphaU, .star true rword, .bnd])]

/-- `(?:(\[[^\]]+\])|(\b[A-Z_][\w]*\b))` (pattern 2 of `_extract_column_refs`). -/
def rePatternWord : RE :=
  .alt (.grp 1 rbracketed) (.grp 2 (rseq [.bnd, clsAlphaU, .star true rword, .bnd]))

/-- The eight function patterns of `decompose_expression`
(`re.search(..., re.DOTALL)`), with their names and group counts. -/
def reFuncConvert : RE :=
  rseq [rlit "CONVERT".toList, rwsStar, rchar '(', rwsStar,
        .grp 1 (rplus (.cls (fun c => c ≠ ','))), rwsStar, rchar ',', rwsStar,
        .grp 2 (rplus rdotAll), rwsStar, rchar ')']

def reFuncCast : RE :=
  rseq [rlit "CAST".toList, rwsStar, rchar '(', rwsStar,
        .grp 1 (rplusLazy rdotAll), rwsPlus, rlit "AS".toList, rwsPlus,
        .grp 2 (rplus (.cls (fun c => c ≠ ')'))), rchar ')']

def reFuncCoalesce : RE :=
  rseq [rlit "COALESCE".toList, rwsStar, rchar '(', .grp 1 (rplus rdotAll), rchar ')']

def reFunc2Args (name : Str) : RE :=
  rseq [rlit name, rwsStar, rchar '(', .grp 1 (rplusLazy rdotAll), rchar ',',
        .grp 2 (rplusLazy rdotAll), rchar ')']

def reFunc3Args (name : Str) : RE :=
  rseq [rlit name, rwsStar, rchar '(', .grp 1 (rplusLazy rdotAll), rchar ',',
        .grp 2 (rplusLazy rdotAll), rchar ',', .grp 3 (rplusLazy rdotAll), rchar ')']

/-- `func_patterns` of `decompose_expression`, in source order, with arity. -/
def funcPatterns : List (RE × Str × Nat) :=
  [(reFuncConvert, "CONVERT".toList, 2),
   (reFuncCast, "CAST".toList, 2),
   (reFuncCoalesce, "COALESCE".toList, 1),
   (reFunc2Args "ISNULL".toList, "ISNULL".toList, 2),
   (reFunc2Args "NULLIF".toList, "NULLIF".toList, 2),
   (reFunc3Args "SUBSTRING".toList, "SUBSTRING".toList, 3),
   (reFunc3Args "DATEADD".toList, "DATEADD".toList, 3),
   (reFunc3Args "DATEDIFF".toList, "DATEDIFF".toList, 3)]

/-- `WHEN\s+(.+?)\s+THEN\s+(.+?)(?=\s+WHEN|\s+ELSE|\s+END|$)`
(`_extract_case_dependencies`, DOTALL). -/
def reWhen : RE :=
  rseq [rlit "WHEN".toList, rwsPlus, .grp 1 (rplusLazy rdotAll), rwsPlus,
        rlit "THEN".toList, rwsPlus, .grp 2 (rplusLazy rdotAll),
        .look (ralt [rseq [rwsPlus, rlit "WHEN".toList],
                     rseq [rwsPlus, rlit "ELSE".toList],
                     rseq [rwsPlus, rlit "END".toList], .eos])]

/-- `ELSE\s+(.+?)\s+END` (DOTALL). -/
def reElse : RE :=
  rseq [rlit "ELSE".toList, rwsPlus, .grp 1 (rplusLazy rdotAll), rwsPlus,
        rlit "END".toList]

/-- `(LEFT|RIGHT|INNER|FULL|CROSS)?\s*(OUTER\s+)?JOIN\s+.*?\s+ON\s+(.*?)(?=\s+(?:LEFT|RIGHT|INNER|FULL|CROSS|WHERE|GROUP|ORDER|UNION|$))`
(`extract_join_conditions`, DOTALL | IGNORECASE).  Note that the bare `$`
alternative sits after the mandatory `\s+` of the lookahead. -/
def reJoin : RE :=
  rseq [.opt true (.grp 1 (ralt [rlit "LEFT".toList, rlit "RIGHT".toList,
                                 rlit "INNER".toList, rlit "FULL".toList,
                                 rlit "CROSS".toList])),
        rwsStar,
        .opt true (.grp 2 (rseq [rlit "OUTER".toList, rwsPlus])),
        rlit "JOIN".toList, rwsPlus, .star false rdotAll, rwsPlus,
        rlit "ON".toList, rwsPlus, .grp 3 (.star false rdotAll),
        .look (rseq [rwsPlus,
                     ralt [rlit "LEFT".toList, rlit "RIGHT".toList, rlit "INNER".toList,
                           rlit "FULL".toList, rlit "CROSS".toList, rlit "WHERE".toList,
                           rlit "GROUP".toList, rlit "ORDER".toList, rlit "UNION".toList,
                           .eos]])]

/-- `(?:(?:ISNULL|COALESCE)\s*\(\s*)?([A-Z_][\w]*\.[A-Z_][\w]*)(?:.*?\))?\s*=\s*(?:(?:ISNULL|COALESCE)\s*\(\s*)?([A-Z_][\w]*\.[A-Z_][\w]*)(?:.*?\))?`
(column pairs of a join condition, IGNORECASE). -/
def reColPairs : RE :=
  let qualref : RE :=
    rseq [clsAlphaU, .star true rword, rchar '.', clsAlphaU, .star true rword]
  let isnWrap : RE :=
    .opt true (rseq [.alt (rlit "ISNULL".toList) (rlit "COALESCE".toList),
                     rwsStar, rchar '(', rwsStar])
  let closeWrap : RE := .opt true (rseq [.star false rdot, rchar ')'])
  rseq [isnWrap, .grp 1 qualref, closeWrap, rwsStar, rchar '=', rwsStar,
        isnWrap, .grp 2 qualref, closeWrap]

/-! ### Data model (`sql_parser.py`) -/

/-- One value of the per-column mapping produced by `parse_sql_deep`
(the ColumnProvenance of the specification). -/
structure ColumnProvenance where
  source_table : Str
  source_column : Str
  expression : Str
  expression_type : Str
  dependencies : List (Option Str × Str)
  logic_breakdown : Str
deriving DecidableEq, Repr

/-- Insertion-ordered column map, one per statement/scope. -/
abbrev ColumnMap := List (Str × ColumnProvenance)

/-- The per-instance memoization cache `self._parse_cache` (lookup takes the
most recent binding, matching dict overwrite semantics). -/
abbrev ParseCache := List (Str × ColumnMap)

def cacheFind (c : ParseCache) (k : Str) : Option ColumnMap := alGet c k

def cacheStore (c : ParseCache) (k : Str) (v : ColumnMap) : ParseCache := (k, v) :: c

/-- Result of `decompose_expression` (the `result` dict; `dtype` is the
`type` key). -/
structure DecompResult where
  dtype : Str
  dependencies : List (Option Str × Str)
  logic : Str
  source_tables : List Str
  source_columns : List Str
  function_name : Option Str
deriving DecidableEq, Repr

/-- Value returned by `_resolve_unqualified_column` / `_resolve_qualified_column`.
The Python code returns plain dicts; callers only ever read
`source_table` and `source_column`, and the primary-table heuristic also
attaches a `logic_breakdown` note, kept here as `logic_note`. -/
structure ResolvedRef where
  source_table : Str
  source_column : Str
  logic_note : Option Str
deriving DecidableEq, Repr

/-- One entry of `extract_join_conditions`. -/
structure JoinCond where
  left_table_alias : Str
  left_table : Str
  left_column : Str
  right_table_alias : Str
  right_table : Str
  right_column : Str
  join_type : Str
  condition : Str
deriving DecidableEq, Repr

/-! ### `_clean_sql_comments` -/

def clean_sql_comments_aux : Nat → Str → Int → Bool → Bool → Option Char → Str
  | 0, _, _, _, _, _ => []
  | _ + 1, [], _, _, _, _ => []
  | fuel + 1, c :: rest, depth, inStr, inLine, sc =>
      if inStr then
        if some c = sc then
          match rest with
          | c2 :: rest2 =>
              if some c2 = sc then c :: c2 :: clean_sql_comments_aux fuel rest2 depth true inLine sc
              else c :: clean_sql_comments_aux fuel rest depth false inLine sc
          | [] => c :: clean_sql_comments_aux fuel [] depth false inLine sc
        else c :: clean_sql_comments_aux fuel rest depth true inLine sc
      else if inLine then
        if c = '\n' then c :: clean_sql_comments_aux fuel rest depth inStr false sc
        else clean_sql_comments_aux fuel rest depth inStr true sc
      else if depth > 0 then
        if c = '/' && rest.head? = some '*' then
          clean_sql_comments_aux fuel (rest.drop 1) (depth + 1) inStr inLine sc
        else if c = '*' && rest.head? = some '/' then
          clean_sql_comments_aux fuel (rest.drop 1) (depth - 1) inStr inLine sc
        else clean_sql_comments_aux fuel rest depth inStr inLine sc
      else if c = '/' && rest.head? = some '*' then
        clean_sql_comments_aux fuel (rest.drop 1) (depth + 1) inStr inLine sc
      else if c = '-' && rest.head? = some '-' then
        clean_sql_comments_aux fuel (rest.drop 1) depth inStr true sc
      else if c = '\'' || c = '"' then
        c :: clean_sql_comments_aux fuel rest depth true inLine (some c)
      else c :: clean_sql_comments_aux fuel rest depth inStr inLine sc

def clean_sql_comments (sql : Str) : Str :=
  clean_sql_comments_aux (sql.length + 1) sql 0 false false none

/-! ### `_extract_balanced_parens` -/

def ebp_loop (sql : Str) (start_pos : Nat) : Nat → Nat → Int → Bool → Option Char → (Str × Nat)
  | 0, i, _, _, _ => (sql.drop (start_pos + 1), i)
  | fuel + 1, i, depth, inStr, sc =>
      match sql.get? i with
      | none => (sql.drop (start_pos + 1), i)
      | some c =>
          if inStr then
            if some c = sc then
              if sql.get? (i + 1) = sc then ebp_loop sql start_pos fuel (i + 2) depth true sc
              else ebp_loop sql start_pos fuel (i + 1) depth false sc
            else ebp_loop sql start_pos fuel (i + 1) depth true sc
          else if c = '\'' || c = '"' then ebp_loop sql start_pos fuel (i + 1) depth true (some c)
          else if c = '(' then ebp_loop sql start_pos fuel (i + 1) (depth + 1) inStr sc
          else if c = ')' then
            if depth - 1 = 0 then (pySlice sql (start_pos + 1) i, i)
            else ebp_loop sql start_pos fuel (i + 1) (depth - 1) inStr sc
          else ebp_loop sql start_pos fuel (i + 1) depth inStr sc

/-- `_extract_balanced_parens(sql, start_pos)`. -/
def extract_balanced_parens (sql : Str) (start_pos : Nat) : Str × Nat :=
  if start_pos ≥ sql.length || sql.get? start_pos ≠ some '(' then ([], start_pos)
  else ebp_loop sql start_pos (sql.length + 2) start_pos 0 false none

/-! ### `_tokenize_select_list` -/

def tsl_loop : Nat → Str → Str → List Str → Int → Bool → Option Char → List Str
  | 0, _, current, tokens, _, _, _ =>
      tokens ++ (if current.isEmpty then [] else [pyStrip current.reverse])
  | _ + 1, [], current, tokens, _, _, _ =>
      tokens ++ (if current.isEmpty then [] else [pyStrip current.reverse])
  | fuel + 1, c :: rest, current, tokens, depth, inStr, sc =>
      if inStr then
        if some c = sc then
          match rest with
          | c2 :: rest2 =>
              if some c2 = sc then tsl_loop fuel rest2 (c2 :: c :: current) tokens depth true sc
              else tsl_loop fuel rest (c :: current) tokens depth false sc
          | [] => tsl_loop fuel [] (c :: current) tokens depth false sc
        else tsl_loop fuel rest (c :: current) tokens depth true sc
      else if c = '\'' || c = '"' then tsl_loop fuel rest (c :: current) tokens depth true (some c)
      else if c = '(' then tsl_loop fuel rest (c :: current) tokens (depth + 1) inStr sc
      else if c = ')' then tsl_loop fuel rest (c :: current) tokens (depth - 1) inStr sc
      else if c = ',' && depth = 0 then tsl_loop fuel rest [] (tokens ++ [pyStrip current.reverse]) depth inStr sc
      else tsl_loop fuel rest (c :: current) tokens depth inStr sc

/-- `_tokenize_select_list`. -/
def tokenize_select_list (s : Str) : List Str := tsl_loop (s.length + 1) s [] [] 0 false none

/-! ### `decompose_expression` and helpers -/

/-- `_simplify_expr`. -/
def simplify_expr (expr : Str) : Str :=
  let e := pyStrip expr
  if e.length > 50 then e.take 47 ++ "...".toList else e

/-- Keyword set of `_extract_column_refs`. -/
def columnRefKeywords : List Str :=
  (["SELECT", "FROM", "WHERE", "CASE", "WHEN", "THEN", "ELSE", "END",
    "AND", "OR", "NOT", "IN", "IS", "NULL", "LIKE", "BETWEEN", "EXISTS",
    "CAST", "CONVERT", "COALESCE", "ISNULL", "SUM", "COUNT", "AVG", "MIN", "MAX",
    "LEFT", "RIGHT", "SUBSTRING", "DATEADD", "DATEDIFF", "AS", "ON", "JOIN",
    "INNER", "OUTER", "CROSS", "APPLY", "TOP", "DISTINCT", "GROUP", "ORDER", "BY",
    "INT", "VARCHAR", "CHAR", "DATE", "DATETIME", "DECIMAL", "NUMERIC", "FLOAT",
    "TRUE", "FALSE", "LITERAL", "NUM", "UPPER", "LOWER", "TRIM", "LTRIM", "RTRIM",
    "REPLACE", "LEN", "DATALENGTH", "ROUND", "FLOOR", "CEILING", "ABS", "FORMAT",
    "YEAR", "MONTH", "DAY", "GETDATE", "GETUTCDATE", "IIF", "CHOOSE", "NULLIF"]).map String.toList

/-- `_extract_column_refs(expr, context_tables)` (the `context_tables`
argument is unused in the source as well). -/
def extract_column_refs (expr : Str) (context_tables : List (Str × Str)) : List (Option Str × Str) :=
  let masked := reSub (reSub expr reQuoted "'LITERAL'".toList) reDigits "NUM".toList
  let refs1 : List (Option Str × Str) :=
    (finditer masked rePatternDot).map (fun t =>
      let full := pySlice masked t.1 t.2.1
      match pySplitOnce '.' full with
      | some (l, r) =>
          (some (pyToUpper (pyStripBrackets (pyStrip l))), pyToUpper (pyStripBrackets (pyStrip r)))
      | none => (some (pyToUpper (pyStripBrackets (pyStrip full))), []))
  let refs2 : List (Option Str × Str) :=
    (finditer masked rePatternWord).filterMap (fun t =>
      let raw := match getGrp masked t.2.2 1 with
        | some g => g
        | none => (getGrp masked t.2.2 2).getD []
      let word := pyToUpper (pyStripBrackets raw)
      if columnRefKeywords.contains word then none
      else if strEnds ".".toList (pyRStrip (masked.take t.1)) then none
      else if strStarts ".".toList (pyLStrip (masked.drop t.2.1)) then none
      else some (none, word))
  let _ := context_tables
  refs1 ++ refs2

/-- First matching entry of `func_patterns`, with its group values. -/
def findFuncMatch (expr : Str) : List (RE × Str × Nat) → Option (Str × List Str)
  | [] => none
  | (re, name, arity) :: rest =>
      match reSearch expr re with
      | some (_, _, cp) =>
          some (name, (List.range arity).filterMap (fun i => getGrp expr cp (i + 1)))
      | none => findFuncMatch expr rest

def arithOps : List Str := (["+", "-", "*", "/", "||", "CONCAT"]).map String.toList

/-- Result of `_extract_case_dependencies`. -/
structure CaseDeps where
  dependencies : List (Option Str × Str)
  source_tables : List Str
  source_columns : List Str
  logic : Str
deriving Repr

/-- `_extract_case_dependencies(case_expr, context_tables)`, parametrised by
the recursive call into `decompose_expression`. -/
def extract_case_dependencies (dec : Str → List (Str × Str) → DecompResult)
    (case_expr : Str) (context_tables : List (Str × Str)) : CaseDeps :=
  let whens := finditer case_expr reWhen
  let acc := whens.foldl (fun (acc : List (Option Str × Str) × List Str × List Str) t =>
      let condition := (getGrp case_expr t.2.2 1).getD []
      let value := (getGrp case_expr t.2.2 2).getD []
      let cd := dec condition context_tables
      let vd := dec value context_tables
      (acc.1 ++ cd.dependencies ++ vd.dependencies,
       setUnion (setUnion acc.2.1 cd.source_tables) vd.source_tables,
       setUnion (setUnion acc.2.2 cd.source_columns) vd.source_columns))
    ([], [], [])
  let else_match := reSearch case_expr reElse
  let acc2 := match else_match with
    | some (_, _, cp) =>
        let ed := dec ((getGrp case_expr cp 1).getD []) context_tables
        (acc.1 ++ ed.dependencies, setUnion acc.2.1 ed.source_tables,
         setUnion acc.2.2 ed.source_columns)
    | none => acc
  let logic_parts := whens.map (fun t =>
      "WHEN ".toList ++ simplify_expr ((getGrp case_expr t.2.2 1).getD []) ++
      " THEN ".toList ++ simplify_expr ((getGrp case_expr t.2.2 2).getD []))
  let logic_parts2 := match else_match with
    | some (_, _, cp) =>
        logic_parts ++ ["ELSE ".toList ++ simplify_expr ((getGrp case_expr cp 1).getD [])]
    | none => logic_parts
  { dependencies := acc2.1, source_tables := acc2.2.1, source_columns := acc2.2.2,
    logic := "CASE ".toList ++ joinStr " ".toList logic_parts2 ++ " END".toList }

/-- One evaluation step of `decompose_expression(expr, context_tables)`,
parametrised by the recursive call (used for CASE branches and function
arguments). -/
def decompose_expression_body (dec : Str → List (Str × Str) → DecompResult)
    (expr0 : Str) (context_tables : List (Str × Str)) : DecompResult :=
      let expr := pyToUpper (pyStrip expr0)
      let base : DecompResult :=
        { dtype := "UNKNOWN".toList, dependencies := [], logic := expr,
          source_tables := [], source_columns := [], function_name := none }
      if strStarts "CASE".toList expr then
        let r := extract_case_dependencies dec expr context_tables
        { dtype := "CASE".toList, dependencies := r.dependencies,
          source_tables := r.source_tables, source_columns := r.source_columns,
          logic := r.logic, function_name := none }
      else
        match findFuncMatch expr funcPatterns with
        | some (fname, args) =>
            let st := args.foldl (fun (acc : List (Option Str × Str) × List Str × List Str) arg =>
                let r := dec arg context_tables
                (acc.1 ++ r.dependencies, setUnion acc.2.1 r.source_tables,
                 setUnion acc.2.2 r.source_columns))
              ([], [], [])
            { dtype := "FUNCTION".toList, function_name := some fname,
              dependencies := st.1,
              logic := fname ++ "(".toList ++ joinStr ", ".toList (args.map simplify_expr) ++ ")".toList,
              source_tables := st.2.1, source_columns := st.2.2 }
        | none =>
            if arithOps.any (fun op => containsSub op expr) then
              let deps := extract_column_refs expr context_tables
              let st := deps.foldl (fun (acc : List Str × List Str) d =>
                  match d.1 with
                  | some tr => (setAdd acc.1 (alGetD context_tables tr tr), setAdd acc.2 d.2)
                  | none => (acc.1, setAdd acc.2 d.2)) ([], [])
              { base with
                dtype := "ARITHMETIC".toList, dependencies := deps,
                source_tables := st.1, source_columns := st.2 }
            else
              match reMatch expr reColMatch with
              | some (_, cp) =>
                  let table_alias := pyToUpper (pyStripBrackets ((getGrp expr cp 1).getD []))
                  let col_name := pyToUpper (pyStripBrackets ((getGrp expr cp 2).getD []))
                  { dtype := "COLUMN".toList, dependencies := [(some table_alias, col_name)],
                    source_tables := [alGetD context_tables table_alias table_alias],
                    source_columns := [col_name],
                    logic := table_alias ++ ".".toList ++ col_name, function_name := none }
              | none =>
                  if (strStarts "'".toList expr && strEnds "'".toList expr)
                      || pyIsDigitStr (pyDropFirstDot expr) || expr = "NULL".toList then
                    { base with dtype := "LITERAL".toList }
                  else
                    match reMatch expr reSingleWord with
                    | some _ =>
                        let clean_col := pyToUpper (pyStripBrackets expr)
                        { base with
                          dtype := "COLUMN".toList,
                          dependencies := [(none, clean_col)],
                          source_columns := [clean_col], logic := clean_col }
                    | none =>
                        let deps := extract_column_refs expr context_tables
                        if deps.isEmpty then base
                        else
                          let st := deps.foldl (fun (acc : List Str × List Str) d =>
                              match d.1 with
                              | some tr => (setAdd acc.1 (alGetD context_tables tr tr), setAdd acc.2 d.2)
                              | none => (acc.1, setAdd acc.2 d.2)) ([], [])
                          { base with
                            dependencies := deps,
                            source_tables := st.1, source_columns := st.2 }

/-- `decompose_expression`, with fuel bounding the recursion (each recursive
call receives a strict substring, so `expr.length + 1` fuel suffices). -/
def decompose_expression : Nat → Str → List (Str × Str) → DecompResult
  | 0, expr0, _ =>
      { dtype := "UNKNOWN".toList, dependencies := [], logic := pyToUpper (pyStrip expr0),
        source_tables := [], source_columns := [], function_name := none }
  | fuel + 1, expr0, context_tables =>
      decompose_expression_body (decompose_expression fuel) expr0 context_tables

/-! ### `_extract_ctes` -/

/-- The DECLARE-stripping loop at the top of `_extract_ctes`. -/
def stripDeclares : Nat → Str → Str
  | 0, sql => sql
  | fuel + 1, sql =>
      if (reMatch sql reDeclare).isSome then
        match reSearch sql (rchar ';') with
        | some (_, e, _) => stripDeclares fuel (pyStrip (sql.drop e))
        | none =>
            match pySplitOnce '\n' sql with
            | some (_, rest2) => stripDeclares fuel (pyStrip rest2)
            | none => stripDeclares fuel []
      else sql

/-- Paren-depth scan for the main SELECT after the CTE list. -/
def findMainSelect (sql : Str) : Nat → Nat → Int → Option Nat
  | 0, _, _ => none
  | fuel + 1, i, depth =>
      if i ≥ sql.length then none
      else
        match sql.get? i with
        | none => none
        | some c =>
            if c = '(' then findMainSelect sql fuel (i + 1) (depth + 1)
            else if c = ')' then findMainSelect sql fuel (i + 1) (depth - 1)
            else if depth = 0 && pyToUpper (pySlice sql i (i + 6)) = "SELECT".toList then some i
            else findMainSelect sql fuel (i + 1) depth

/-- The per-CTE loop of `_extract_ctes`, parametrised by the recursive
`parse_sql_deep` call. -/
def cteLoop (parse : ParseCache → Str → ColumnMap × ParseCache) (cte_section : Str) :
    Nat → Nat → List (Str × ColumnMap) → ParseCache → List (Str × ColumnMap) × ParseCache
  | 0, _, acc, cache => (acc, cache)
  | fuel + 1, pos, acc, cache =>
      if pos ≥ cte_section.length then (acc, cache)
      else
        match reSearch (cte_section.drop pos) reCteName with
        | none => (acc, cache)
        | some (_, e, cp) =>
            let cte_name := pyToUpper ((getGrp (cte_section.drop pos) cp 1).getD [])
            let paren_start := pos + e - 1
            let ebp := extract_balanced_parens cte_section paren_start
            let cte_content := ebp.1
            let paren_end := ebp.2
            if cte_content.isEmpty then cteLoop parse cte_section fuel (paren_end + 1) acc cache
            else
              let pr := parse cache cte_content
              cteLoop parse cte_section fuel (paren_end + 1) (alSet acc cte_name pr.1) pr.2

/-- `_extract_ctes(sql)`. -/
def extract_ctes (parse : ParseCache → Str → ColumnMap × ParseCache)
    (cache : ParseCache) (sql0 : Str) : (List (Str × ColumnMap) × Str) × ParseCache :=
  let sql1 := pyStrip sql0
  let sql := stripDeclares (sql1.length + 1) sql1
  match reMatch sql reWith with
  | none => (([], sql), cache)
  | some (cte_start, _) =>
      match findMainSelect sql (sql.length + 1) cte_start 0 with
      | none => (([], sql), cache)
      | some main_select_pos =>
          let cte_section := pySlice sql cte_start main_select_pos
          let remaining_sql := sql.drop main_select_pos
          let cl := cteLoop parse cte_section (cte_section.length + 1) 0 [] cache
          ((cl.1, remaining_sql), cl.2)

/-! ### `_extract_derived_tables` -/

def derivedKwBefore : List Str :=
  (["FROM", "JOIN", "APPLY", "UPDATE", "INTO"]).map String.toList

def derivedKwAfter : List Str :=
  (["ON", "JOIN", "LEFT", "RIGHT", "WHERE", "ORDER", "GROUP"]).map String.toList

/-- The masking loop of `_extract_derived_tables`; the fuel is exactly the
source's `max_iterations = 20` bound. -/
def edtLoop (parse : ParseCache → Str → ColumnMap × ParseCache) :
    Nat → List (Str × ColumnMap) → Str → ParseCache →
    (List (Str × ColumnMap) × Str) × ParseCache
  | 0, maps, masked, cache => ((maps, masked), cache)
  | fuel + 1, maps, masked, cache =>
      match reSearch masked reParenSelect with
      | none => ((maps, masked), cache)
      | some (s, _, _) =>
          let prefix_text := pyStrip (masked.take s)
          let is_derived :=
            if prefix_text.isEmpty then false
            else
              match reSearch prefix_text reLastWord with
              | some (_, _, cp) =>
                  derivedKwBefore.contains (pyToUpper ((getGrp prefix_text cp 1).getD []))
              | none => false
          let ebp := extract_balanced_parens masked s
          let inner_sql := ebp.1
          let end_pos := ebp.2
          if inner_sql.isEmpty then ((maps, masked), cache)
          else
            let remainder := if end_pos + 1 < masked.length then masked.drop (end_pos + 1) else []
            let derived_alias : Option Str :=
              match reMatch remainder reAliasAfterParen with
              | some (_, cp) =>
                  if is_derived then
                    let a := pyToUpper ((getGrp remainder cp 1).getD [])
                    if derivedKwAfter.contains a then none else some a
                  else none
              | none => none
            let step :=
              match derived_alias with
              | some a =>
                  let pr := parse cache inner_sql
                  (alSet maps a pr.1, pr.2)
              | none => (maps, cache)
            let new_masked :=
              masked.take s ++
                (if is_derived then " (DERIVED_TABLE_MASK) ".toList
                 else " (SCALAR_SUBQUERY_MASK) ".toList) ++
                masked.drop (end_pos + 1)
            edtLoop parse fuel step.1 new_masked step.2

/-- `_extract_derived_tables(sql)`. -/
def extract_derived_tables (parse : ParseCache → Str → ColumnMap × ParseCache)
    (cache : ParseCache) (sql : Str) : (List (Str × ColumnMap) × Str) × ParseCache :=
  edtLoop parse 20 [] sql cache

/-! ### `_contains_union` and `_parse_union` -/

def cuLoop (sql : Str) : Nat → Nat → Int → Bool
  | 0, _, _ => false
  | fuel + 1, i, depth =>
      match sql.get? i with
      | none => false
      | some c =>
          if c = '(' then cuLoop sql fuel (i + 1) (depth + 1)
          else if c = ')' then cuLoop sql fuel (i + 1) (depth - 1)
          else if depth = 0 && pySlice sql i (i + 5) = "UNION".toList
              && (i = 0 || !((sql.get? (i - 1)).elim false Char.isAlphanum))
              && (i + 5 ≥ sql.length || !((sql.get? (i + 5)).elim false Char.isAlphanum)) then
            true
          else cuLoop sql fuel (i + 1) depth

/-- `_contains_union(sql)`. -/
def contains_union (sql : Str) : Bool := cuLoop sql (sql.length + 1) 0 0

/-- Branch splitting of `_parse_union`. -/
def puSplit (sql : Str) : Nat → Nat → Int → Nat → List Str → List Str
  | 0, _, _, start, branches =>
      branches ++ (if start < sql.length then [pyStrip (sql.drop start)] else [])
  | fuel + 1, i, depth, start, branches =>
      match sql.get? i with
      | none => branches ++ (if start < sql.length then [pyStrip (sql.drop start)] else [])
      | some c =>
          if c = '(' then puSplit sql fuel (i + 1) (depth + 1) start branches
          else if c = ')' then puSplit sql fuel (i + 1) (depth - 1) start branches
          else if depth = 0 && pySlice sql i (i + 5) = "UNION".toList
              && (i = 0 || !((sql.get? (i - 1)).elim false Char.isAlphanum))
              && (i + 5 ≥ sql.length || !((sql.get? (i + 5)).elim false Char.isAlphanum)) then
            let next_pos := i + 5
            let next_pos :=
              if pyToUpper (pyStrip (pySlice sql next_pos (next_pos + 4))) = "ALL".toList then
                next_pos + 4
              else next_pos
            puSplit sql fuel (i + 1) depth next_pos (branches ++ [pyStrip (pySlice sql start i)])
          else puSplit sql fuel (i + 1) depth start branches

/-- `_parse_union(sql, cte_mappings)` (the `cte_mappings` argument is unused
in the source body as well); the merged map is not written to the cache,
matching the early return in `parse_sql_deep`. -/
def parse_union (parse : ParseCache → Str → ColumnMap × ParseCache)
    (cache : ParseCache) (sql : Str) (cte_mappings : List (Str × ColumnMap)) :
    ColumnMap × ParseCache :=
  let _ := cte_mappings
  let branches := puSplit sql (sql.length + 1) 0 0 0 []
  let br := branches.foldl
      (fun (acc : List ColumnMap × ParseCache) b =>
        let pr := parse acc.2 b
        (acc.1 ++ [pr.1], pr.2)) ([], cache)
  let branch_results := br.1
  match branch_results with
  | [] => ([], br.2)
  | first_branch :: _ =>
      let merged := first_branch.foldl (fun (m : ColumnMap) p =>
          let col_alias := p.1
          let col_data := p.2
          let all_sources := branch_results.filterMap
              (fun b2 => (alGet b2 col_alias).map (fun e => e.source_table))
          let all_source_cols := branch_results.filterMap
              (fun b2 => (alGet b2 col_alias).map (fun e => e.source_column))
          alSet m col_alias
            { source_table :=
                joinStr " UNION ".toList (all_sources.filter (fun x => x ≠ "N/A".toList)),
              source_column := joinStr " UNION ".toList (pySetOf all_source_cols),
              expression := col_data.expression,
              expression_type := "UNION".toList,
              dependencies := col_data.dependencies,
              logic_breakdown :=
                "UNION of ".toList ++ (Nat.repr branch_results.length).toList ++
                  " branches".toList }) []
      (merged, br.2)

/-! ### `_parse_table_aliases` and `_extract_select_clause` -/

def tableAliasKw : List Str :=
  (["LEFT", "RIGHT", "INNER", "OUTER", "JOIN", "ON", "WHERE",
    "GROUP", "ORDER", "BY", "SELECT", "FROM",
    "DERIVED_TABLE_MASK", "SCALAR_SUBQUERY_MASK"]).map String.toList

/-- `_parse_table_aliases(sql, subquery_mappings)`. -/
def parse_table_aliases (sql : Str) (subquery_mappings : List (Str × ColumnMap)) :
    List (Str × Str) :=
  let base := subquery_mappings.map (fun p => (p.1, "SUBQUERY::".toList ++ p.1))
  (finditer sql reTableAlias).foldl (fun (m : List (Str × Str)) t =>
      let table_name := pyToUpper (pyStripBrackets ((getGrp sql t.2.2 1).getD []))
      let alias0 := match getGrp sql t.2.2 2 with
        | some a => pyToUpper a
        | none => table_name
      let alias1 := if tableAliasKw.contains alias0 then table_name else alias0
      if alHas m alias1 then m else m ++ [(alias1, table_name)])
    base

def escLoop (sql : Str) (select_start : Nat) : Nat → Nat → Int → Str
  | 0, _, _ => pyStrip (sql.drop select_start)
  | fuel + 1, i, depth =>
      match sql.get? i with
      | none => pyStrip (sql.drop select_start)
      | some c =>
          if c = '(' then escLoop sql select_start fuel (i + 1) (depth + 1)
          else if c = ')' then escLoop sql select_start fuel (i + 1) (depth - 1)
          else if depth = 0 && pyToUpper (pySlice sql i (i + 4)) = "FROM".toList
              && (i = 0 || !((sql.get? (i - 1)).elim false Char.isAlphanum)) then
            pyStrip (pySlice sql select_start i)
          else escLoop sql select_start fuel (i + 1) depth

/-- `_extract_select_clause(sql)`. -/
def extract_select_clause (sql : Str) : Str :=
  match reSearch sql reSelectKw with
  | none => []
  | some (_, e, _) => escLoop sql e (sql.length + 1) e 0

/-! ### Column resolvers -/

/-- `_resolve_unqualified_column(col_name, table_aliases, subquery_mappings)`.
The Python return value is a dict; all callers read only
`source_table`/`source_column`, and the primary-table heuristic also
attaches a `logic_breakdown` note (`logic_note` here, never read back). -/
def resolve_unqualified_column (col_name : Str) (table_aliases : List (Str × Str))
    (subquery_mappings : List (Str × ColumnMap)) : ResolvedRef :=
  let real_tables := (table_aliases.map (fun p => p.2)).filter
      (fun t => !strStarts "SUBQUERY::".toList t)
  match real_tables with
  | [table_name] =>
      (match alGet subquery_mappings table_name with
       | some sub =>
           (match alGet sub col_name with
            | some e =>
                { source_table := e.source_table, source_column := e.source_column,
                  logic_note := none }
            | none =>
                match alGet sub "*".toList with
                | some e =>
                    { source_table := e.source_table, source_column := e.source_column,
                      logic_note := none }
                | none =>
                    { source_table := table_name, source_column := col_name,
                      logic_note := none })
       | none => { source_table := table_name, source_column := col_name, logic_note := none })
  | _ =>
      let fromScopes := table_aliases.findSome? (fun p =>
          let table_name := p.2
          if strStarts "SUBQUERY::".toList table_name then
            let real_alias := ((pySplitSub "::".toList table_name).get? 1).getD []
            match alGet subquery_mappings real_alias with
            | some sub => alGet sub col_name
            | none => none
          else
            match alGet subquery_mappings table_name with
            | some sub => alGet sub col_name
            | none => none)
      match fromScopes with
      | some e =>
          { source_table := e.source_table, source_column := e.source_column,
            logic_note := none }
      | none =>
          match real_tables with
          | primary :: _ =>
              { source_table := primary, source_column := col_name,
                logic_note :=
                  some ("Assumed from Primary Table (".toList ++ primary ++ ")".toList) }
          | [] =>
              { source_table := "Ambiguous".toList, source_column := col_name,
                logic_note := none }

/-- `_resolve_qualified_column(table_ref, col_name, table_aliases, subquery_mappings)`. -/
def resolve_qualified_column (table_ref col_name : Str) (table_aliases : List (Str × Str))
    (subquery_mappings : List (Str × ColumnMap)) : ResolvedRef :=
  let aliasCheck : ResolvedRef :=
    match alGet table_aliases table_ref with
    | some table_name =>
        if strStarts "SUBQUERY::".toList table_name then
          match alGet subquery_mappings (((pySplitSub "::".toList table_name).get? 1).getD []) with
          | some sub =>
              (match alGet sub col_name with
               | some e =>
                   { source_table := e.source_table, source_column := e.source_column,
                     logic_note := none }
               | none =>
                   match alGet sub "*".toList with
                   | some w =>
                       { source_table := w.source_table, source_column := col_name,
                         logic_note := none }
                   | none =>
                       { source_table := table_name, source_column := col_name,
                         logic_note := none })
          | none =>
              { source_table := table_name, source_column := col_name, logic_note := none }
        else
          match alGet subquery_mappings table_name with
          | some sub =>
              (match alGet sub col_name with
               | some e =>
                   { source_table := e.source_table, source_column := e.source_column,
                     logic_note := none }
               | none =>
                   { source_table := table_name, source_column := col_name,
                     logic_note := none })
          | none =>
              { source_table := table_name, source_column := col_name, logic_note := none }
    | none => { source_table := table_ref, source_column := col_name, logic_note := none }
  match alGet subquery_mappings table_ref with
  | some sub =>
      (match alGet sub col_name with
       | some e =>
           { source_table := e.source_table, source_column := e.source_column,
             logic_note := none }
       | none =>
           match alGet sub "*".toList with
           | some w =>
               { source_table := w.source_table, source_column := col_name,
                 logic_note := none }
           | none => aliasCheck)
  | none => aliasCheck

/-- `_expand_select_star(table_aliases, subquery_mappings)`. -/
def expand_select_star (table_aliases : List (Str × Str))
    (subquery_mappings : List (Str × ColumnMap)) : ColumnMap :=
  match table_aliases.map (fun p => p.2) with
  | [table_name] =>
      let result : ColumnMap :=
        if strStarts "SUBQUERY::".toList table_name then
          match alGet subquery_mappings (((pySplitSub "::".toList table_name).get? 1).getD []) with
          | some sub => sub.foldl (fun r p => if p.1 = "*".toList then r else alSet r p.1 p.2) []
          | none => []
        else
          match alGet subquery_mappings table_name with
          | some sub => sub.foldl (fun r p => if p.1 = "*".toList then r else alSet r p.1 p.2) []
          | none => []
      if result.isEmpty && !strStarts "SUBQUERY::".toList table_name then
        [("*".toList,
          { source_table := table_name, source_column := "*".toList,
            expression := "SELECT *".toList, expression_type := "WILDCARD".toList,
            dependencies := [],
            logic_breakdown := "All columns from ".toList ++ table_name })]
      else result
  | _ => []

/-! ### `_parse_column_token` -/

def parseAliasKw : List Str :=
  (["END", "AS", "AND", "OR", "IS", "NULL", "NOT"]).map String.toList

/-- `_parse_column_token(token, table_aliases, subquery_mappings)`. -/
def parse_column_token (token0 : Str) (table_aliases : List (Str × Str))
    (subquery_mappings : List (Str × ColumnMap)) : Option (Str × ColumnProvenance) :=
  if token0.isEmpty || pyStrip token0 = "*".toList then none
  else
    let original_token := token0
    let token := pyToUpper (pyStrip token0)
    let eqSplit : Option (Str × Str) :=
      if token.contains '=' && !strStarts "'".toList token then
        match pySplitOnce '=' token with
        | some (l, r) =>
            let potential_alias := pyStrip l
            if !potential_alias.contains ' ' && !potential_alias.contains '(' then
              some (potential_alias, pyStrip r)
            else none
        | none => none
      else none
    let step1 : Option Str × Str :=
      match eqSplit with
      | some (a, e) => (some a, e)
      | none => (none, token)
    let step2 : Option Str × Str :=
      match step1.1 with
      | some _ => step1
      | none =>
          match reSearch token reAliasTail with
          | some (s, _, cp) =>
              let found_alias := (getGrp token cp 1).getD []
              if parseAliasKw.contains (pyToUpper found_alias) then step1
              else (some found_alias, pyStrip (token.take s))
          | none => step1
    let col_expr := step2.2
    let col_alias : Str :=
      match step2.1 with
      | some a => a
      | none =>
          if col_expr.contains '.' then
            pyStripBrackets (((pySplitChar '.' col_expr).getLast?).getD [])
          else pyStripBrackets col_expr
    let expr_analysis := decompose_expression (col_expr.length + 1) col_expr table_aliases
    let st := expr_analysis.dependencies.foldl
        (fun (acc : List Str × List Str) d =>
          match d.1 with
          | none =>
              let resolved := resolve_unqualified_column d.2 table_aliases subquery_mappings
              (setAdd acc.1 resolved.source_table, setAdd acc.2 resolved.source_column)
          | some tref =>
              let resolved := resolve_qualified_column tref d.2 table_aliases subquery_mappings
              (setAdd acc.1 resolved.source_table, setAdd acc.2 resolved.source_column))
        ([], [])
    let is_literal := expr_analysis.dtype = "LITERAL".toList
    let res_table0 := if is_literal then "Static Value".toList else "Calculation".toList
    let res_table := if !st.1.isEmpty then joinStr ", ".toList (pySortedStr st.1) else res_table0
    let res_col0 := joinStr ", ".toList (pySortedStr st.2)
    let res_col :=
      if res_col0.isEmpty then
        -- both branches of the source if/else compute the same truncation
        let clean_val := pyStrip original_token
        if clean_val.length < 50 then clean_val else clean_val.take 47 ++ "...".toList
      else res_col0
    some (pyToUpper (pyStripBrackets col_alias),
      { source_table := res_table, source_column := res_col,
        expression := original_token, expression_type := expr_analysis.dtype,
        dependencies := expr_analysis.dependencies,
        logic_breakdown := expr_analysis.logic })

/-! ### `parse_sql_deep` -/

/-- One evaluation step of `parse_sql_deep(sql_query)`, parametrised by the
recursive call; the memoization cache is threaded explicitly.
`_resolve_variables` is the identity: the extractor constructs
`EnhancedSQLParser` without a variable resolver. -/
def parse_sql_deep_body (parse : ParseCache → Str → ColumnMap × ParseCache)
    (cache : ParseCache) (sql_query : Str) : ColumnMap × ParseCache :=
  if sql_query.isEmpty || sql_query = "N/A".toList then ([], cache)
  else
    let cache_key := sql_query.take 200
    match cacheFind cache cache_key with
    | some m => (m, cache)
    | none =>
        let sql_clean := pyStrip (pyToUpper (clean_sql_comments sql_query))
        if strStarts "EXEC".toList sql_clean then
          let parts := pySplitWs sql_clean
          let proc_name := match parts with
            | _ :: p :: _ => p
            | _ => "UNKNOWN_PROC".toList
          ([("*".toList,
             { source_table := proc_name, source_column := "*".toList,
               expression := "Stored Procedure Result".toList,
               expression_type := "PROCEDURE".toList, dependencies := [],
               logic_breakdown := "Result from ".toList ++ proc_name })], cache)
        else
          let er := extract_ctes parse cache sql_clean
          let cte_mappings := er.1.1
          let sql_clean2 := er.1.2
          let cache1 := er.2
          if contains_union sql_clean2 then
            parse_union parse cache1 sql_clean2 cte_mappings
          else
            let dr := extract_derived_tables parse cache1 sql_clean2
            let derived_mappings := dr.1.1
            let sql_masked := dr.1.2
            let cache2 := dr.2
            let all_subqueries := alMerge cte_mappings derived_mappings
            let table_aliases := parse_table_aliases sql_masked all_subqueries
            let select_clause := extract_select_clause sql_masked
            if select_clause.isEmpty then ([], cache2)
            else
              let column_tokens := tokenize_select_list select_clause
              let cm0 := column_tokens.foldl (fun (m : ColumnMap) tok =>
                  match parse_column_token tok table_aliases all_subqueries with
                  | some (a, e) => alSet m a e
                  | none => m) []
              let column_mappings :=
                if column_tokens.any (fun t => pyStrip t = "*".toList) then
                  (expand_select_star table_aliases all_subqueries).foldl
                    (fun m p => alSet m p.1 p.2) cm0
                else cm0
              (column_mappings, cacheStore cache2 cache_key column_mappings)

/-- `parse_sql_deep`, with fuel bounding the scope recursion. -/
def parse_sql_deep : Nat → ParseCache → Str → ColumnMap × ParseCache
  | 0, cache, _ => ([], cache)
  | fuel + 1, cache, sql_query => parse_sql_deep_body (parse_sql_deep fuel) cache sql_query

/-- Entry point.  The Python recursion descends only into strict substrings
(CTE bodies, derived tables, union branches), so `sql.length + 2` fuel
reproduces every terminating run. -/
def parse_sql_deep_run (cache : ParseCache) (sql : Str) : ColumnMap × ParseCache :=
  parse_sql_deep (sql.length + 2) cache sql

/-! ### `extract_join_conditions` -/

/-- `extract_join_conditions(sql_query)`. -/
def extract_join_conditions (fuel : Nat) (cache : ParseCache) (sql_query : Str) :
    List JoinCond × ParseCache :=
  if sql_query.isEmpty || sql_query = "N/A".toList then ([], cache)
  else
    let sql_clean := pyStrip (pyToUpper (clean_sql_comments sql_query))
    let er := extract_ctes (parse_sql_deep fuel) cache sql_clean
    let dr := extract_derived_tables (parse_sql_deep fuel) er.2 er.1.2
    let sql_masked := dr.1.2
    let all_subqueries := alMerge er.1.1 dr.1.1
    let table_aliases := parse_table_aliases sql_masked all_subqueries
    let conds := (finditer sql_masked reJoin).foldl (fun (acc : List JoinCond) t =>
        let join_type := pyToUpper ((getGrp sql_masked t.2.2 1).getD ("INNER".toList))
        let condition := pyStrip ((getGrp sql_masked t.2.2 3).getD [])
        let pairs := (finditer condition reColPairs).map (fun u =>
            ((getGrp condition u.2.2 1).getD [], (getGrp condition u.2.2 2).getD []))
        pairs.foldl (fun acc2 pr =>
            let lsplit := (pySplitOnce '.' pr.1).getD (pr.1, [])
            let rsplit := (pySplitOnce '.' pr.2).getD (pr.2, [])
            let lres := resolve_qualified_column lsplit.1 lsplit.2 table_aliases all_subqueries
            let rres := resolve_qualified_column rsplit.1 rsplit.2 table_aliases all_subqueries
            acc2 ++ [{ left_table_alias := lsplit.1, left_table := lres.source_table,
                       left_column := lres.source_column,
                       right_table_alias := rsplit.1, right_table := rres.source_table,
                       right_column := rres.source_column,
                       join_type := join_type, condition := condition }]) acc)
      []
    (conds, dr.2)

/-- Entry point for `extract_join_conditions`. -/
def extract_join_conditions_run (cache : ParseCache) (sql : Str) :
    List JoinCond × ParseCache :=
  extract_join_conditions (sql.length + 2) cache sql

/-! ### `app.py`: pipeline graph and topological traversal
(`SSISMetadataExtractor._trace_column_lineage_topology`)

Components are identified by their resolved ids; each `path` whose start
output and end input resolve to components contributes one directed edge
(source component, target component).  The traversal below is the
queue-based walk of the source: in-degree counters (Python ints, hence
`Int`), initial queue of in-degree-0 components in insertion order,
neighbours decremented on dequeue and enqueued exactly when a decrement
reaches zero.  `traverseTask` returns the dequeue order; the per-kind
component actions (seeding, transfer, row emission at destinations) are
driven by precisely this order. -/

structure DFTask where
  nodes : List Nat
  edges : List (Nat × Nat)
deriving DecidableEq, Repr

def succsOf (edges : List (Nat × Nat)) (c : Nat) : List Nat :=
  edges.filterMap (fun e => if e.1 = c then some e.2 else none)

def indeg0 (edges : List (Nat × Nat)) (v : Nat) : Int :=
  ((edges.filter (fun e => e.2 = v)).length : Int)

/-- `for neighbor in adj_list[cid]: in_degree[neighbor] -= 1; if == 0: queue.append`. -/
def processSuccs (f : Nat → Int) : List Nat → ((Nat → Int) × List Nat)
  | [] => (f, [])
  | t :: rest =>
      let d := f t - 1
      let f2 := fun v => if v = t then d else f v
      let pr := processSuccs f2 rest
      (pr.1, (if d = 0 then [t] else []) ++ pr.2)

def kahnLoop (edges : List (Nat × Nat)) : Nat → (Nat → Int) → List Nat → List Nat → List Nat
  | 0, _, _, processed => processed
  | _ + 1, _, [], processed => processed
  | fuel + 1, f, c :: rest, processed =>
      let pr := processSuccs f (succsOf edges c)
      kahnLoop edges fuel pr.1 (rest ++ pr.2) (processed ++ [c])

/-- Dequeue order for one dataflow task (the Python `while queue` loop; each
node is enqueued at most once, so the fuel never runs out). -/
def traverseTask (t : DFTask) : List Nat :=
  let q0 := t.nodes.filter (fun v => indeg0 t.edges v = 0)
  kahnLoop t.edges ((t.nodes.length + 1) * (t.edges.length + 1) + 1) (indeg0 t.edges) q0 []

/-- The outer `for dft in self._get_dataflow_tasks()` loop: each task is
traversed independently and the per-task results are concatenated. -/
def traverseAll : List DFTask → List Nat
  | [] => []
  | t :: ts => traverseTask t ++ traverseAll ts

/-! ### `app.py`: the UnionAll transfer rule (lines 756-778) -/

/-- One provenance entry of the `lineage_id_map` lists. -/
structure SourceInfo where
  source_component : Str
  source_table : Str
  original_column : Str
  expression_logic : Str
  source_type : Str
deriving DecidableEq, Repr

/-- `lineage_id_map : LineageID -> list of SourceInfo`. -/
abbrev LineageMap := List (Str × List SourceInfo)

/-- `new_src['Expression/Logic'] += " -> Union(comp_name)"` applied to a copy. -/
def unionTag (comp_name : Str) (s : SourceInfo) : SourceInfo :=
  { s with
    expression_logic := s.expression_logic ++ " -> Union(".toList ++ comp_name ++ ")".toList }

/-- The inner `for src in lineage_id_map[in_lid]` loop, threading the
`used_source_keys` set and the accumulated `new_sources`. -/
def unionInner (comp_name : Str) (srcs : List SourceInfo)
    (acc : List (Str × Str) × List SourceInfo) : List (Str × Str) × List SourceInfo :=
  srcs.foldl (fun (acc2 : List (Str × Str) × List SourceInfo) src =>
      let key := (src.source_table, src.original_column)
      if acc2.1.contains key then acc2
      else (acc2.1 ++ [key], acc2.2 ++ [unionTag comp_name src])) acc

/-- `new_sources` computed by the UnionAll branch for the output column at
positional index `idx`: `inputs` lists, per union input, the (optional)
lineage ids of its input columns in document order. -/
def union_all_new_sources (m : LineageMap) (inputs : List (List (Option Str)))
    (idx : Nat) (comp_name : Str) : List SourceInfo :=
  (inputs.foldl (fun (acc : List (Str × Str) × List SourceInfo) in_cols =>
      match in_cols.get? idx with
      | some (some in_lid) =>
          (match alGet m in_lid with
           | some upstream_list => unionInner comp_name upstream_list acc
           | none => acc)
      | _ => acc) ([], [])).2

/-- The enclosing assignment: a brand-new output lineage id receives the
computed list (`lineage_id_map[lid] = new_sources`); an id already present
is left alone (the `if lid in lineage_id_map` pass-through branch). -/
def union_all_assign (m : LineageMap) (lid : Str) (inputs : List (List (Option Str)))
    (idx : Nat) (comp_name : Str) : LineageMap :=
  if alHas m lid then m
  else alSet m lid (union_all_new_sources m inputs idx comp_name)

/-- First-occurrence deduplication by key, as the specification describes it. -/
def dedupByKeyAux (key : SourceInfo → Str × Str) :
    List (Str × Str) → List SourceInfo → List SourceInfo
  | _, [] => []
  | seen, x :: xs =>
      if seen.contains (key x) then dedupByKeyAux key seen xs
      else x :: dedupByKeyAux key (seen ++ [key x]) xs

def dedupByKey (key : SourceInfo → Str × Str) (l : List SourceInfo) : List SourceInfo :=
  dedupByKeyAux key [] l

/-- The specification reading of the UnionAll rule: take the k-th input
column's provenance list of every union input (empty when the column or
its id is missing or unmapped), concatenate in input order, deduplicate by
(source table, original column), and breadcrumb-tag every entry. -/
def union_all_spec (m : LineageMap) (inputs : List (List (Option Str)))
    (idx : Nat) (comp_name : Str) : List SourceInfo :=
  (dedupByKey (fun s => (s.source_table, s.original_column))
      ((inputs.map (fun in_cols =>
          match in_cols.get? idx with
          | some (some l) => (alGet m l).getD []
          | _ => [])).flatten)).map (unionTag comp_name)

/-! ## Helper lemmas -/

theorem alGet_cons_self {α : Type} (k : Str) (v : α) (rest : List (Str × α)) :
    alGet ((k, v) :: rest) k = some v := by
  unfold alGet
  rw [List.find?_cons_of_pos _ (by simp)]
  rfl

theorem alGet_append_self {α : Type} (m : List (Str × α)) (k : Str) (v : α)
    (h : alHas m k = false) : alGet (m ++ [(k, v)]) k = some v := by
  induction m with
  | nil => exact alGet_cons_self k v []
  | cons p rest ih =>
      simp only [alHas, List.any_cons, Bool.or_eq_false_iff] at h
      obtain ⟨h1, h2⟩ := h
      simp only [List.cons_append, alGet]
      rw [List.find?_cons_of_neg _ (by rw [h1]; exact Bool.false_ne_true)]
      exact ih (by simp only [alHas]; exact h2)

theorem alGet_alSet_self {α : Type} (m : List (Str × α)) (k : Str) (v : α)
    (h : alHas m k = false) : alGet (alSet m k v) k = some v := by
  unfold alSet
  rw [h]
  simp only [Bool.false_eq_true, if_false]
  exact alGet_append_self m k v h

theorem findSome?_eq_none_of_all {α β : Type} (l : List α) (f : α → Option β)
    (h : ∀ a ∈ l, f a = none) : l.findSome? f = none := by
  induction l with
  | nil => rfl
  | cons a rest ih =>
      rw [List.findSome?_cons]
      rw [h a (List.mem_cons_self a rest)]
      exact ih (fun b hb => h b (List.mem_cons_of_mem a hb))

/-! ## C1 -/

/-- C1 counterexample: for `SELECT x FROM T1 UNION SELECT x FROM T2`, deep
resolution produces the single alias X, but its source_table is the string
"T1 UNION T2" — not the sorted, deduplicated, comma-joined "T1, T2" the
claim states. -/
theorem c1_counterexample :
    ((parse_sql_deep_run [] "SELECT x FROM T1 UNION SELECT x FROM T2".toList).1.map
        (fun p => (p.1, p.2.source_table)))
      = [("X".toList, "T1 UNION T2".toList)]
    ∧ ("T1 UNION T2".toList : Str) ≠ "T1, T2".toList := by
  exact ⟨by decide, by decide⟩

/-- C1 amended: for `SELECT x FROM T1 UNION SELECT x FROM T2`, deep
resolution returns a ColumnMap with the single key X (taken from the first
branch's alias set), whose source_table is the " UNION "-joined
concatenation of the branch source tables in branch order with "N/A"
entries dropped ("T1 UNION T2"), and whose source_column is the
" UNION "-join of the deduplicated branch source columns ("X"); the entry
is tagged UNION and keeps the first branch's expression and dependencies. -/
theorem c1_union_merge_amended :
    (parse_sql_deep_run [] "SELECT x FROM T1 UNION SELECT x FROM T2".toList).1 =
      [("X".toList,
        { source_table := "T1 UNION T2".toList,
          source_column := "X".toList,
          expression := "X".toList,
          expression_type := "UNION".toList,
          dependencies := [(none, "X".toList)],
          logic_breakdown := "UNION of 2 branches".toList })] := by decide

/-! ## C2 -/

/-- C2 counterexample: on the unbalanced input "(ABC" the balanced-group
extractor does not return an empty result — it returns the whole remainder
after the opening parenthesis together with the scan position. -/
theorem c2_counterexample :
    extract_balanced_parens "(ABC".toList 0 = ("ABC".toList, 4)
    ∧ ("ABC".toList : Str) ≠ ([] : Str) := by
  exact ⟨by decide, by decide⟩

/-- C2 amended: the balanced-group extractor never throws; when the start
position does not hold an opening parenthesis (or is out of range) it
returns the empty span unchanged; on balanced input it returns the span up
to the matching close parenthesis, treating parentheses inside string
literals as content; on unbalanced input it returns the remainder after
the opening parenthesis (not an empty result). -/
theorem c2_balanced_parens_amended :
    (∀ (sql : Str) (i : Nat), i ≥ sql.length ∨ sql.get? i ≠ some '(' →
        extract_balanced_parens sql i = ([], i))
    ∧ extract_balanced_parens "(A'()'B)C".toList 0 = ("A'()'B".toList, 7)
    ∧ extract_balanced_parens "(A(B".toList 0 = ("A(B".toList, 4) := by
  refine ⟨?_, by decide, by decide⟩
  intro sql i h
  unfold extract_balanced_parens
  split
  · rfl
  · next hc =>
      exfalso
      rcases h with h | h
      · exact hc (by simp only [Bool.or_eq_true, decide_eq_true_eq]; exact Or.inl h)
      · exact hc (by simp only [Bool.or_eq_true, decide_eq_true_eq]; exact Or.inr h)

/-- C2 witness. -/
theorem c2_witness : extract_balanced_parens "X".toList 0 = ([], 0) :=
  c2_balanced_parens_amended.1 "X".toList 0 (Or.inr (by decide))

/-! ## C6 -/

/-- C6 evaluation at the failing input: for
`SELECT a.x, b.y FROM T1 a JOIN T2 b ON a.id=b.id` the ColumnMap half of
the claim holds (X from T1.X, Y from T2.Y), but the join-key extractor
returns the empty list: the join regex requires the ON condition to be
followed by whitespace and a clause keyword (the bare `$` alternative sits
after a mandatory `\s+`), which a statement ending at the condition cannot
satisfy.  Appending a WHERE clause makes the extractor return exactly the
(T1.ID, T2.ID, INNER) pair the claim expects. -/
theorem c6_join_example_eval :
    (parse_sql_deep_run [] "SELECT a.x, b.y FROM T1 a JOIN T2 b ON a.id=b.id".toList).1 =
      [("X".toList,
        { source_table := "T1".toList, source_column := "X".toList,
          expression := "A.X".toList, expression_type := "COLUMN".toList,
          dependencies := [(some "A".toList, "X".toList)],
          logic_breakdown := "A.X".toList }),
       ("Y".toList,
        { source_table := "T2".toList, source_column := "Y".toList,
          expression := "B.Y".toList, expression_type := "COLUMN".toList,
          dependencies := [(some "B".toList, "Y".toList)],
          logic_breakdown := "B.Y".toList })]
    ∧ (extract_join_conditions_run []
        "SELECT a.x, b.y FROM T1 a JOIN T2 b ON a.id=b.id".toList).1 = []
    ∧ (extract_join_conditions_run []
        "SELECT a.x, b.y FROM T1 a JOIN T2 b ON a.id=b.id WHERE 1=1".toList).1 =
      [{ left_table_alias := "A".toList, left_table := "T1".toList,
         left_column := "ID".toList,
         right_table_alias := "B".toList, right_table := "T2".toList,
         right_column := "ID".toList,
         join_type := "INNER".toList, condition := "A.ID=B.ID".toList }] := by
  exact ⟨by decide, by decide, by decide⟩

/-! ## C10 -/

/-- C10: for the empty string and for the literal text "N/A", deep SQL
resolution returns the empty ColumnMap and join-condition extraction
returns the empty list, for any cache state; both functions are total, so
nothing is raised. -/
theorem c10_trivial_inputs :
    ∀ c : ParseCache,
      (parse_sql_deep_run c "".toList).1 = []
      ∧ (parse_sql_deep_run c "N/A".toList).1 = []
      ∧ (extract_join_conditions_run c "".toList).1 = []
      ∧ (extract_join_conditions_run c "N/A".toList).1 = [] := by
  intro c
  exact ⟨rfl, rfl, rfl, rfl⟩

/-! ## C5 (counterexample; the amended invariant follows further below) -/

/-- The eight expression_type values named by the specification. -/
def specTypes : List Str :=
  (["LITERAL", "COLUMN", "CASE", "FUNCTION", "ARITHMETIC",
    "WILDCARD", "PROCEDURE", "UNION"]).map String.toList

/-- The value set the code actually produces: the specification's eight
plus the `UNKNOWN` initial tag that `decompose_expression` leaves on
expressions matching none of its branches. -/
def modelTypes : List Str := specTypes ++ ["UNKNOWN".toList]

/-- C5 counterexample: the projection token `(X)` (a parenthesised column)
matches none of the decomposition branches, so its entry carries
expression_type UNKNOWN, which is outside the claimed eight-value set. -/
theorem c5_counterexample :
    ((parse_sql_deep_run [] "SELECT (X) FROM T".toList).1.map
        (fun p => (p.1, p.2.expression_type)))
      = [("(X)".toList, "UNKNOWN".toList)]
    ∧ ("UNKNOWN".toList : Str) ∉ specTypes := by
  exact ⟨by decide, by decide⟩

/-! ## C7 -/

/-- C7: for a statement whose FROM clause binds at least one physical table,
all of them the same table T, and which has no CTEs and no derived tables
(empty scope mappings), every unqualified column reference resolves to T
paired with the column's own name — covering both the sole-table branch
and the primary-table fallback of `_resolve_unqualified_column` (the case
of one table bound under several aliases). -/
theorem c7_single_table_resolution :
    ∀ (col_name T : Str) (table_aliases : List (Str × Str)),
      ((table_aliases.map (fun p => p.2)).filter
          (fun t => !strStarts "SUBQUERY::".toList t)) ≠ [] →
      (∀ t ∈ (table_aliases.map (fun p => p.2)).filter
          (fun t => !strStarts "SUBQUERY::".toList t), t = T) →
      (resolve_unqualified_column col_name table_aliases []).source_table = T
      ∧ (resolve_unqualified_column col_name table_aliases []).source_column = col_name := by
  intro col_name T table_aliases hne hall
  unfold resolve_unqualified_column
  cases hr : (table_aliases.map (fun p => p.2)).filter
      (fun t => !strStarts "SUBQUERY::".toList t) with
  | nil => exact absurd hr hne
  | cons t rest =>
      cases rest with
      | nil =>
          simp only [hr]
          have ht : t = T := hall t (by rw [hr]; exact List.mem_cons_self t [])
          subst ht
          exact ⟨rfl, rfl⟩
      | cons t2 rest2 =>
          simp only [hr]
          have hnone : table_aliases.findSome? (fun p =>
              let table_name := p.2
              if strStarts "SUBQUERY::".toList table_name then
                match alGet ([] : List (Str × ColumnMap))
                    (((pySplitSub "::".toList table_name).get? 1).getD []) with
                | some sub => alGet sub col_name
                | none => none
              else
                match alGet ([] : List (Str × ColumnMap)) table_name with
                | some sub => alGet sub col_name
                | none => none) = none := by
            apply findSome?_eq_none_of_all
            intro a _
            dsimp only
            split
            · rfl
            · rfl
          rw [hnone]
          have ht : t = T := hall t (by rw [hr]; exact List.mem_cons_self t (t2 :: rest2))
          subst ht
          exact ⟨rfl, rfl⟩

/-- C7 witness. -/
theorem c7_witness :
    (resolve_unqualified_column "C".toList [("A".toList, "T1".toList)] []).source_table
        = "T1".toList
    ∧ (resolve_unqualified_column "C".toList [("A".toList, "T1".toList)] []).source_column
        = "C".toList :=
  c7_single_table_resolution "C".toList "T1".toList [("A".toList, "T1".toList)]
    (by decide) (by decide)

/-! ## C8 -/

/-- Seen-key set after a dedup pass (proof artifact for the fold). -/
def dedupSeenAux (key : SourceInfo → Str × Str) :
    List (Str × Str) → List SourceInfo → List (Str × Str)
  | seen, [] => seen
  | seen, x :: xs =>
      if seen.contains (key x) then dedupSeenAux key seen xs
      else dedupSeenAux key (seen ++ [key x]) xs

theorem unionInner_eq (name : Str) :
    ∀ (srcs : List SourceInfo) (seen : List (Str × Str)) (out : List SourceInfo),
      unionInner name srcs (seen, out) =
        (dedupSeenAux (fun s => (s.source_table, s.original_column)) seen srcs,
         out ++ (dedupByKeyAux (fun s => (s.source_table, s.original_column)) seen srcs).map
                  (unionTag name)) := by
  intro srcs
  induction srcs with
  | nil => intro seen out; simp [unionInner, dedupSeenAux, dedupByKeyAux]
  | cons x xs ih =>
      intro seen out
      rw [show unionInner name (x :: xs) (seen, out)
            = unionInner name xs
                (if seen.contains (x.source_table, x.original_column) = true
                 then (seen, out)
                 else (seen ++ [(x.source_table, x.original_column)], out ++ [unionTag name x]))
          from rfl]
      by_cases hx : seen.contains (x.source_table, x.original_column) = true
      · have hm : (x.source_table, x.original_column) ∈ seen := by simpa using hx
        rw [if_pos hx, ih seen out]
        simp [dedupSeenAux, dedupByKeyAux, hm]
      · have hm : (x.source_table, x.original_column) ∉ seen := by simpa using hx
        rw [if_neg hx, ih]
        simp [dedupSeenAux, dedupByKeyAux, hm]

theorem dedupSeenAux_append (key : SourceInfo → Str × Str) :
    ∀ (a b : List SourceInfo) (seen : List (Str × Str)),
      dedupSeenAux key seen (a ++ b) = dedupSeenAux key (dedupSeenAux key seen a) b := by
  intro a
  induction a with
  | nil => intro b seen; rfl
  | cons x xs ih =>
      intro b seen
      simp only [List.cons_append, dedupSeenAux]
      by_cases hx : seen.contains (key x) = true
      · rw [if_pos hx, if_pos hx]
        exact ih b seen
      · rw [if_neg hx, if_neg hx]
        exact ih b (seen ++ [key x])

theorem dedupByKeyAux_append (key : SourceInfo → Str × Str) :
    ∀ (a b : List SourceInfo) (seen : List (Str × Str)),
      dedupByKeyAux key seen (a ++ b)
        = dedupByKeyAux key seen a ++ dedupByKeyAux key (dedupSeenAux key seen a) b := by
  intro a
  induction a with
  | nil => intro b seen; rfl
  | cons x xs ih =>
      intro b seen
      simp only [List.cons_append, dedupByKeyAux, dedupSeenAux]
      by_cases hx : seen.contains (key x) = true
      · rw [if_pos hx, if_pos hx, if_pos hx]
        exact ih b seen
      · rw [if_neg hx, if_neg hx, if_neg hx]
        rw [List.append_eq, ih b (seen ++ [key x])]
        simp

theorem union_all_fold_eq (m : LineageMap) (idx : Nat) (name : Str) :
    ∀ (inputs : List (List (Option Str))) (seen : List (Str × Str)) (out : List SourceInfo),
      inputs.foldl (fun (acc : List (Str × Str) × List SourceInfo) in_cols =>
          match in_cols.get? idx with
          | some (some in_lid) =>
              (match alGet m in_lid with
               | some upstream_list => unionInner name upstream_list acc
               | none => acc)
          | _ => acc) (seen, out)
        = (dedupSeenAux (fun s => (s.source_table, s.original_column)) seen
             ((inputs.map (fun in_cols =>
                 match in_cols.get? idx with
                 | some (some l) => (alGet m l).getD []
                 | _ => [])).flatten),
           out ++ (dedupByKeyAux (fun s => (s.source_table, s.original_column)) seen
             ((inputs.map (fun in_cols =>
                 match in_cols.get? idx with
                 | some (some l) => (alGet m l).getD []
                 | _ => [])).flatten)).map (unionTag name)) := by
  intro inputs
  induction inputs with
  | nil => intro seen out; simp [dedupSeenAux, dedupByKeyAux]
  | cons ic rest ih =>
      intro seen out
      rw [List.foldl_cons, List.map_cons, List.flatten_cons]
      cases hg : ic.get? idx with
      | none =>
          simp only [hg]
          rw [List.nil_append]
          exact ih seen out
      | some o =>
          cases o with
          | none =>
              simp only [hg]
              rw [List.nil_append]
              exact ih seen out
          | some l =>
              cases ha : alGet m l with
              | none =>
                  simp only [hg, ha, Option.getD_none]
                  rw [List.nil_append]
                  exact ih seen out
              | some ul =>
                  simp only [hg, ha, Option.getD_some]
                  rw [unionInner_eq name ul seen out]
                  rw [ih]
                  rw [dedupSeenAux_append, dedupByKeyAux_append]
                  simp

/-- C8: when the propagator processes a UnionAll component, the provenance
list assigned to a brand-new output LineageID at positional index k equals
the concatenation, across all union inputs in order, of the k-th input
column's provenance lists, deduplicated by (source table, source column)
keeping first occurrences, with every copied entry breadcrumb-tagged
" -> Union(component)". -/
theorem c8_unionall_dedup :
    ∀ (m : LineageMap) (lid : Str) (inputs : List (List (Option Str)))
      (idx : Nat) (name : Str),
      alHas m lid = false →
      alGet (union_all_assign m lid inputs idx name) lid
        = some (union_all_spec m inputs idx name) := by
  intro m lid inputs idx name h
  unfold union_all_assign
  rw [h]
  simp only [Bool.false_eq_true, if_false]
  rw [alGet_alSet_self _ _ _ h]
  congr 1
  unfold union_all_new_sources union_all_spec dedupByKey
  rw [union_all_fold_eq m idx name inputs [] []]
  simp

/-- C8 witness: two union inputs whose first columns carry provenance with
the same (table, column) key; the new output id receives the deduplicated,
breadcrumb-tagged list. -/
theorem c8_witness :
    alGet (union_all_assign
        [("L1".toList, [⟨"SRC1".toList, "TBL".toList, "COL".toList, "seed1".toList, "DT".toList⟩]),
         ("L2".toList, [⟨"SRC2".toList, "TBL".toList, "COL".toList, "seed2".toList, "DT".toList⟩])]
        "OUT".toList [[some "L1".toList], [some "L2".toList]] 0 "U".toList) "OUT".toList
      = some (union_all_spec
        [("L1".toList, [⟨"SRC1".toList, "TBL".toList, "COL".toList, "seed1".toList, "DT".toList⟩]),
         ("L2".toList, [⟨"SRC2".toList, "TBL".toList, "COL".toList, "seed2".toList, "DT".toList⟩])]
        [[some "L1".toList], [some "L2".toList]] 0 "U".toList) :=
  c8_unionall_dedup _ "OUT".toList _ 0 "U".toList (by decide)

/-! ## C3: traversal lemmas -/

theorem processSuccs_fst (L : List Nat) (f : Nat → Int) (v : Nat) :
    (processSuccs f L).1 v = f v - (L.count v : Int) := by
  induction L generalizing f with
  | nil => simp [processSuccs]
  | cons t rest ih =>
      simp only [processSuccs]
      rw [ih]
      by_cases hv : v = t
      · subst hv
        have hc : ((v :: rest).count v : Int) = (rest.count v : Int) + 1 := by
          simp [List.count_cons]
        rw [hc, if_pos rfl]
        omega
      · have hc : ((t :: rest).count v : Int) = (rest.count v : Int) := by
          simp [List.count_cons, hv, Ne.symm hv]
        rw [hc, if_neg hv]

theorem processSuccs_not_mem_of_nonpos (L : List Nat) (f : Nat → Int) (t : Nat)
    (h : f t ≤ 0) : t ∉ (processSuccs f L).2 := by
  induction L generalizing f with
  | nil => simp [processSuccs]
  | cons u rest ih =>
      simp only [processSuccs]
      intro hmem
      rcases List.mem_append.mp hmem with h1 | h2
      · by_cases hu : u = t
        · have hd : ¬(f u - 1 = 0) := by rw [hu]; omega
          rw [if_neg hd] at h1
          exact absurd h1 (List.not_mem_nil _)
        · by_cases hd : f u - 1 = 0
          · rw [if_pos hd] at h1
            exact hu (List.mem_singleton.mp h1).symm
          · rw [if_neg hd] at h1
            exact absurd h1 (List.not_mem_nil _)
      · refine ih (fun v => if v = u then f u - 1 else f v) ?_ h2
        show (if t = u then f u - 1 else f t) ≤ 0
        by_cases ht : t = u
        · rw [if_pos ht, ← ht]
          omega
        · rw [if_neg ht]
          exact h

theorem processSuccs_not_mem_of_big (L : List Nat) (f : Nat → Int) (t : Nat)
    (h : 1 ≤ f t - (L.count t : Int)) : t ∉ (processSuccs f L).2 := by
  induction L generalizing f with
  | nil => simp [processSuccs]
  | cons u rest ih =>
      simp only [processSuccs]
      intro hmem
      rcases List.mem_append.mp hmem with h1 | h2
      · by_cases hu : u = t
        · have hc : ((u :: rest).count t : Int) = (rest.count t : Int) + 1 := by
            simp [List.count_cons, hu]
          have hd : ¬(f u - 1 = 0) := by
            have hnn : (0 : Int) ≤ (rest.count t : Int) := Int.ofNat_nonneg _
            rw [hu]
            omega
          rw [if_neg hd] at h1
          exact absurd h1 (List.not_mem_nil _)
        · by_cases hd : f u - 1 = 0
          · rw [if_pos hd] at h1
            exact hu (List.mem_singleton.mp h1).symm
          · rw [if_neg hd] at h1
            exact absurd h1 (List.not_mem_nil _)
      · refine ih (fun v => if v = u then f u - 1 else f v) ?_ h2
        show 1 ≤ (if t = u then f u - 1 else f t) - (rest.count t : Int)
        by_cases ht : t = u
        · have hc : ((u :: rest).count t : Int) = (rest.count t : Int) + 1 := by
            simp [List.count_cons, ht.symm]
          rw [if_pos ht, ← ht]
          omega
        · have hc : ((u :: rest).count t : Int) = (rest.count t : Int) := by
            simp [List.count_cons, ht, Ne.symm ht]
          rw [if_neg ht]
          omega

theorem processSuccs_snd_nodup (L : List Nat) (f : Nat → Int) :
    (processSuccs f L).2.Nodup := by
  induction L generalizing f with
  | nil => simp [processSuccs]
  | cons u rest ih =>
      simp only [processSuccs]
      by_cases hd : f u - 1 = 0
      · rw [if_pos hd]
        refine List.Nodup.append (by simp) (ih _) ?_
        intro a ha1 ha2
        have hau := List.mem_singleton.mp ha1
        refine processSuccs_not_mem_of_nonpos rest
            (fun v => if v = u then f u - 1 else f v) a ?_ ha2
        show (if a = u then f u - 1 else f a) ≤ 0
        rw [if_pos hau, hd]
      · rw [if_neg hd]
        simpa using ih _

theorem processSuccs_mem_nonpos (L : List Nat) (f : Nat → Int) (t : Nat)
    (h : t ∈ (processSuccs f L).2) : (processSuccs f L).1 t ≤ 0 := by
  induction L generalizing f with
  | nil => simp [processSuccs] at h
  | cons u rest ih =>
      simp only [processSuccs] at h ⊢
      rcases List.mem_append.mp h with h1 | h2
      · by_cases hd : f u - 1 = 0
        · rw [if_pos hd] at h1
          have htu := List.mem_singleton.mp h1
          rw [processSuccs_fst]
          show (if t = u then f u - 1 else f t) - (rest.count t : Int) ≤ 0
          rw [if_pos htu, hd]
          have hnn : (0 : Int) ≤ (rest.count t : Int) := Int.ofNat_nonneg _
          omega
        · rw [if_neg hd] at h1
          exact absurd h1 (List.not_mem_nil _)
      · exact ih _ h2

theorem succsOf_count (edges : List (Nat × Nat)) (c v : Nat) :
    (succsOf edges c).count v
      = edges.countP (fun e => decide (e.2 = v) && decide (e.1 = c)) := by
  induction edges with
  | nil => rfl
  | cons e rest ih =>
      rcases e with ⟨a, b⟩
      by_cases hc : a = c
      · subst hc
        rw [show succsOf ((a, b) :: rest) a = b :: succsOf rest a from by
              simp [succsOf, List.filterMap_cons]]
        rw [List.count_cons, List.countP_cons, ih]
        by_cases hv : b = v
        · subst hv
          simp
        · simp [hv, Ne.symm hv]
      · rw [show succsOf ((a, b) :: rest) c = succsOf rest c from by
              simp [succsOf, List.filterMap_cons, hc]]
        rw [List.countP_cons, ih]
        simp [hc]

theorem countP_or_disjoint {α : Type} (l : List α) (p q : α → Bool)
    (h : ∀ x ∈ l, ¬(p x = true ∧ q x = true)) :
    l.countP (fun x => p x || q x) = l.countP p + l.countP q := by
  induction l with
  | nil => simp
  | cons a rest ih =>
      simp only [List.countP_cons]
      rw [ih (fun x hx => h x (List.mem_cons_of_mem _ hx))]
      have ha := h a (List.mem_cons_self _ _)
      by_cases hp : p a = true
      · have hq : q a = false := by
          cases hqv : q a
          · rfl
          · exact absurd ⟨hp, hqv⟩ ha
        simp [hp, hq]
        omega
      · have hp' : p a = false := by simpa using hp
        by_cases hqv : q a = true
        · simp [hp', hqv]
          omega
        · have hq' : q a = false := by simpa using hqv
          simp [hp', hq']

theorem countP3_le {α : Type} (l : List α) (p q r base : α → Bool)
    (hp : ∀ x ∈ l, p x = true → base x = true)
    (hq : ∀ x ∈ l, q x = true → base x = true)
    (hr : ∀ x ∈ l, r x = true → base x = true)
    (hpq : ∀ x ∈ l, ¬(p x = true ∧ q x = true))
    (hpr : ∀ x ∈ l, ¬(p x = true ∧ r x = true))
    (hqr : ∀ x ∈ l, ¬(q x = true ∧ r x = true)) :
    l.countP p + l.countP q + l.countP r ≤ l.countP base := by
  induction l with
  | nil => simp
  | cons a rest ih =>
      simp only [List.countP_cons]
      have ihr := ih (fun x hx => hp x (List.mem_cons_of_mem _ hx))
        (fun x hx => hq x (List.mem_cons_of_mem _ hx))
        (fun x hx => hr x (List.mem_cons_of_mem _ hx))
        (fun x hx => hpq x (List.mem_cons_of_mem _ hx))
        (fun x hx => hpr x (List.mem_cons_of_mem _ hx))
        (fun x hx => hqr x (List.mem_cons_of_mem _ hx))
      have key : (if p a = true then 1 else 0) + (if q a = true then 1 else 0)
          + (if r a = true then 1 else 0) ≤ (if base a = true then 1 else 0) := by
        by_cases hpa : p a = true
        · have hb := hp a (List.mem_cons_self _ _) hpa
          have hqa : q a = false := by
            cases hv : q a
            · rfl
            · exact absurd ⟨hpa, hv⟩ (hpq a (List.mem_cons_self _ _))
          have hra : r a = false := by
            cases hv : r a
            · rfl
            · exact absurd ⟨hpa, hv⟩ (hpr a (List.mem_cons_self _ _))
          simp [hpa, hb, hqa, hra]
        · have hpa' : p a = false := by simpa using hpa
          by_cases hqa : q a = true
          · have hb := hq a (List.mem_cons_self _ _) hqa
            have hra : r a = false := by
              cases hv : r a
              · rfl
              · exact absurd ⟨hqa, hv⟩ (hqr a (List.mem_cons_self _ _))
            simp [hpa', hqa, hb, hra]
          · have hqa' : q a = false := by simpa using hqa
            by_cases hra : r a = true
            · have hb := hr a (List.mem_cons_self _ _) hra
              simp [hpa', hqa', hra, hb]
            · have hra' : r a = false := by simpa using hra
              simp [hpa', hqa', hra']
      omega

theorem kahn_safety (edges : List (Nat × Nat)) (S : List Nat)
    (hS : ∀ s ∈ S, ∃ e ∈ edges, e.2 = s ∧ e.1 ∈ S) :
    ∀ (fuel : Nat) (f : Nat → Int) (queue processed : List Nat),
      (∀ v, v ∈ queue ∨ v ∈ processed → f v ≤ 0) →
      queue.Nodup →
      (∀ v ∈ queue, v ∉ processed) →
      (∀ s ∈ S, s ∉ queue ∧ s ∉ processed) →
      (∀ v, f v = (edges.countP (fun e => decide (e.2 = v)) : Int)
          - (edges.countP (fun e => decide (e.2 = v) && decide (e.1 ∈ processed)) : Int)) →
      ∀ s ∈ S, s ∉ kahnLoop edges fuel f queue processed := by
  intro fuel
  induction fuel with
  | zero =>
      intro f queue processed _ _ _ hC _ s hs
      exact (hC s hs).2
  | succ n ih =>
      intro f queue processed hA hq hqp hC hD s hs
      cases queue with
      | nil => exact (hC s hs).2
      | cons c rest =>
          have hcq : f c ≤ 0 := hA c (Or.inl (List.mem_cons_self _ _))
          have hcp : c ∉ processed := hqp c (List.mem_cons_self _ _)
          have hcrest : c ∉ rest := (List.nodup_cons.mp hq).1
          have hrestnd : rest.Nodup := (List.nodup_cons.mp hq).2
          have hcS : c ∉ S := fun hcs => (hC c hcs).1 (List.mem_cons_self _ _)
          have hf2 : ∀ v, (processSuccs f (succsOf edges c)).1 v
              = f v - ((succsOf edges c).count v : Int) :=
            fun v => processSuccs_fst (succsOf edges c) f v
          have hcount_nn : ∀ v, (0 : Int) ≤ ((succsOf edges c).count v : Int) :=
            fun v => Int.ofNat_nonneg _
          show s ∉ kahnLoop edges n (processSuccs f (succsOf edges c)).1
              (rest ++ (processSuccs f (succsOf edges c)).2) (processed ++ [c])
          refine ih (processSuccs f (succsOf edges c)).1
              (rest ++ (processSuccs f (succsOf edges c)).2) (processed ++ [c])
              ?_ ?_ ?_ ?_ ?_ s hs
          -- (A)
          · intro v hv
            rw [hf2 v]
            rcases hv with hv | hv
            · rcases List.mem_append.mp hv with hv | hv
              · have := hA v (Or.inl (List.mem_cons_of_mem _ hv))
                have := hcount_nn v
                omega
              · have := processSuccs_mem_nonpos (succsOf edges c) f v hv
                rw [hf2 v] at this
                exact this
            · rcases List.mem_append.mp hv with hv | hv
              · have := hA v (Or.inr hv)
                have := hcount_nn v
                omega
              · have hvc := List.mem_singleton.mp hv
                rw [hvc]
                have := hcount_nn c
                omega
          -- (B1)
          · refine List.Nodup.append hrestnd (processSuccs_snd_nodup _ _) ?_
            intro a ha1 ha2
            exact processSuccs_not_mem_of_nonpos _ f a
              (hA a (Or.inl (List.mem_cons_of_mem _ ha1))) ha2
          -- (B2)
          · intro v hv hvp
            rcases List.mem_append.mp hv with hv | hv
            · rcases List.mem_append.mp hvp with hvp | hvp
              · exact hqp v (List.mem_cons_of_mem _ hv) hvp
              · have hvc := List.mem_singleton.mp hvp
                exact hcrest (hvc ▸ hv)
            · rcases List.mem_append.mp hvp with hvp | hvp
              · exact processSuccs_not_mem_of_nonpos _ f v (hA v (Or.inr hvp)) hv
              · have hvc := List.mem_singleton.mp hvp
                exact processSuccs_not_mem_of_nonpos _ f v (by rw [hvc]; exact hcq) hv
          -- (C)
          · intro t ht
            have htq : t ∉ c :: rest := (hC t ht).1
            have htp : t ∉ processed := (hC t ht).2
            have htc : t ≠ c := fun hh => htq (hh ▸ List.mem_cons_self _ _)
            constructor
            · intro hmem
              rcases List.mem_append.mp hmem with hmem | hmem
              · exact htq (List.mem_cons_of_mem _ hmem)
              · -- t cannot be enqueued: its in-degree stays ≥ 1
                refine processSuccs_not_mem_of_big _ f t ?_ hmem
                rw [succsOf_count edges c t]
                obtain ⟨e, he, he2, he1⟩ := hS t ht
                have hpos : 0 < edges.countP
                    (fun e => decide (e.2 = t) && decide (e.1 ∈ S)) :=
                  List.countP_pos_iff.mpr ⟨e, he, by simp [he2, he1]⟩
                have hle := countP3_le edges
                    (fun e => decide (e.2 = t) && decide (e.1 ∈ processed))
                    (fun e => decide (e.2 = t) && decide (e.1 = c))
                    (fun e => decide (e.2 = t) && decide (e.1 ∈ S))
                    (fun e => decide (e.2 = t))
                    (fun x _ hx => by
                      simp only [Bool.and_eq_true, decide_eq_true_eq] at hx
                      simp [hx.1])
                    (fun x _ hx => by
                      simp only [Bool.and_eq_true, decide_eq_true_eq] at hx
                      simp [hx.1])
                    (fun x _ hx => by
                      simp only [Bool.and_eq_true, decide_eq_true_eq] at hx
                      simp [hx.1])
                    (fun x _ hx => by
                      simp only [Bool.and_eq_true, decide_eq_true_eq] at hx
                      exact hcp (hx.2.2 ▸ hx.1.2))
                    (fun x _ hx => by
                      simp only [Bool.and_eq_true, decide_eq_true_eq] at hx
                      exact (hC x.1 hx.2.2).2 hx.1.2)
                    (fun x _ hx => by
                      simp only [Bool.and_eq_true, decide_eq_true_eq] at hx
                      exact hcS (hx.1.2 ▸ hx.2.2))
                have hDt := hD t
                omega
            · intro hmem
              rcases List.mem_append.mp hmem with hmem | hmem
              · exact htp hmem
              · exact htc (List.mem_singleton.mp hmem)
          -- (D)
          · intro v
            rw [hf2 v, hD v, succsOf_count edges c v]
            have hsplit : edges.countP
                (fun e => decide (e.2 = v) && decide (e.1 ∈ processed ++ [c]))
                = edges.countP (fun e => decide (e.2 = v) && decide (e.1 ∈ processed))
                  + edges.countP (fun e => decide (e.2 = v) && decide (e.1 = c)) := by
              rw [← countP_or_disjoint edges
                  (fun e => decide (e.2 = v) && decide (e.1 ∈ processed))
                  (fun e => decide (e.2 = v) && decide (e.1 = c))
                  (fun x _ hx => by
                    simp only [Bool.and_eq_true, decide_eq_true_eq] at hx
                    exact hcp (hx.2.2 ▸ hx.1.2))]
              refine List.countP_congr ?_
              intro e _
              by_cases h2 : e.2 = v
              · by_cases h1p : e.1 ∈ processed
                · simp [h2, h1p, List.mem_append]
                · by_cases h1c : e.1 = c
                  · simp [h2, h1p, h1c, List.mem_append]
                  · simp [h2, h1p, h1c, List.mem_append]
              · simp [h2]
            rw [hsplit]
            push_cast
            omega

/-- C3 amended: on a dataflow task whose paths contain a cycle, the
topological traversal stalls — no component of a predecessor-closed set S
(every member of S has an in-edge from S, e.g. the nodes of a cycle) is
ever dequeued — and the stalled components are silently skipped: no error
of any kind is reported for the task, whose output is simply missing the
cyclic part, while sibling dataflow tasks continue to be propagated
independently (the package result is the concatenation of per-task
results). -/
theorem c3_cycle_stall_amended :
    (∀ (t : DFTask) (S : List Nat),
        t.nodes.Nodup →
        (∀ s ∈ S, ∃ e ∈ t.edges, e.2 = s ∧ e.1 ∈ S) →
        ∀ s ∈ S, s ∉ traverseTask t)
    ∧ (∀ ts us : List DFTask,
        traverseAll (ts ++ us) = traverseAll ts ++ traverseAll us) := by
  constructor
  · intro t S hnd hS s hs
    unfold traverseTask
    refine kahn_safety t.edges S hS _ (indeg0 t.edges)
        (t.nodes.filter (fun v => indeg0 t.edges v = 0)) [] ?_ ?_ ?_ ?_ ?_ s hs
    · intro v hv
      rcases hv with hv | hv
      · have h0 : indeg0 t.edges v = 0 := of_decide_eq_true ((List.mem_filter.mp hv).2)
        omega
      · exact absurd hv (List.not_mem_nil _)
    · exact hnd.filter _
    · intro v _ hv
      exact absurd hv (List.not_mem_nil _)
    · intro u hu
      constructor
      · intro hmem
        have h0 : indeg0 t.edges u = 0 := of_decide_eq_true ((List.mem_filter.mp hmem).2)
        obtain ⟨e, he, he2, _⟩ := hS u hu
        have hpos : 0 < t.edges.countP (fun e => decide (e.2 = u)) :=
          List.countP_pos_iff.mpr ⟨e, he, by simp [he2]⟩
        have heq : indeg0 t.edges u
            = (t.edges.countP (fun e => decide (e.2 = u)) : Int) := by
          unfold indeg0
          rw [List.countP_eq_length_filter]
        omega
      · exact List.not_mem_nil _
    · intro v
      have hz : t.edges.countP
          (fun e => decide (e.2 = v) && decide (e.1 ∈ ([] : List Nat))) = 0 := by
        rw [List.countP_eq_zero]
        intro a _
        simp
      rw [hz]
      unfold indeg0
      rw [List.countP_eq_length_filter]
      push_cast
      omega
  · intro ts us
    induction ts with
    | nil => rfl
    | cons t rest ih =>
        show traverseTask t ++ traverseAll (rest ++ us) = _
        rw [ih]
        simp [traverseAll, List.append_assoc]

/-- C3 counterexample: a package with a two-node cyclic task and a healthy
sibling task.  The cyclic task's traversal processes nothing, no error or
report of any kind appears in the output — the package result is
indistinguishable from that of a package whose first task is empty — and
the sibling task is fully traversed. -/
theorem c3_counterexample :
    traverseTask ⟨[1, 2], [(1, 2), (2, 1)]⟩ = []
    ∧ traverseAll [⟨[1, 2], [(1, 2), (2, 1)]⟩, ⟨[3, 4], [(3, 4)]⟩] = [3, 4]
    ∧ traverseAll [⟨[1, 2], [(1, 2), (2, 1)]⟩, ⟨[3, 4], [(3, 4)]⟩]
        = traverseAll [⟨[], []⟩, ⟨[3, 4], [(3, 4)]⟩] := by
  exact ⟨by decide, by decide, by decide⟩

/-- C3 witness. -/
theorem c3_witness :
    (2 ∉ traverseTask ⟨[1, 2], [(1, 2), (2, 1)]⟩)
    ∧ traverseAll ([⟨[3, 4], [(3, 4)]⟩] ++ [⟨[1, 2], [(1, 2), (2, 1)]⟩])
        = traverseAll [⟨[3, 4], [(3, 4)]⟩] ++ traverseAll [⟨[1, 2], [(1, 2), (2, 1)]⟩] :=
  ⟨c3_cycle_stall_amended.1 ⟨[1, 2], [(1, 2), (2, 1)]⟩ [1, 2] (by decide) (by decide)
      2 (by decide),
   c3_cycle_stall_amended.2 _ _⟩

/-! ## C9 -/

/-- On the normal resolution path (non-empty, not "N/A", no cache hit
needed, not EXEC, no top-level union, non-empty select clause) the
resolved map is stored in the cache under the 200-character key; a cache
hit trivially satisfies the same equation. -/
theorem parse_run_stores (cache : ParseCache) (sql : Str)
    (h1 : sql ≠ []) (h2 : sql ≠ "N/A".toList)
    (hexec : strStarts "EXEC".toList (pyStrip (pyToUpper (clean_sql_comments sql))) = false)
    (hunion : contains_union
        (extract_ctes (parse_sql_deep (sql.length + 1)) cache
          (pyStrip (pyToUpper (clean_sql_comments sql)))).1.2 = false)
    (hsel : extract_select_clause
        (extract_derived_tables (parse_sql_deep (sql.length + 1))
          (extract_ctes (parse_sql_deep (sql.length + 1)) cache
            (pyStrip (pyToUpper (clean_sql_comments sql)))).2
          (extract_ctes (parse_sql_deep (sql.length + 1)) cache
            (pyStrip (pyToUpper (clean_sql_comments sql)))).1.2).1.2 ≠ []) :
    cacheFind (parse_sql_deep_run cache sql).2 (sql.take 200)
      = some (parse_sql_deep_run cache sql).1 := by
  show cacheFind
      (parse_sql_deep_body (parse_sql_deep (sql.length + 1)) cache sql).2 (sql.take 200)
    = some (parse_sql_deep_body (parse_sql_deep (sql.length + 1)) cache sql).1
  unfold parse_sql_deep_body
  split
  · next hg =>
      exfalso
      rcases Bool.or_eq_true_iff.mp hg with hg | hg
      · exact h1 (by simpa using hg)
      · exact h2 (of_decide_eq_true hg)
  · next hg =>
      cases hcf : cacheFind cache (sql.take 200) with
      | some m => simp [hcf]
      | none =>
          simp only [hcf]
          rw [hexec]
          simp only [Bool.false_eq_true, if_false]
          rw [hunion]
          simp only [Bool.false_eq_true, if_false]
          have hselb : (extract_select_clause
              (extract_derived_tables (parse_sql_deep (sql.length + 1))
                (extract_ctes (parse_sql_deep (sql.length + 1)) cache
                  (pyStrip (pyToUpper (clean_sql_comments sql)))).2
                (extract_ctes (parse_sql_deep (sql.length + 1)) cache
                  (pyStrip (pyToUpper (clean_sql_comments sql)))).1.2).1.2).isEmpty = false := by
            cases hx : (extract_select_clause
                (extract_derived_tables (parse_sql_deep (sql.length + 1))
                  (extract_ctes (parse_sql_deep (sql.length + 1)) cache
                    (pyStrip (pyToUpper (clean_sql_comments sql)))).2
                  (extract_ctes (parse_sql_deep (sql.length + 1)) cache
                    (pyStrip (pyToUpper (clean_sql_comments sql)))).1.2).1.2).isEmpty
            · rfl
            · exact absurd (List.isEmpty_iff.mp hx) hsel
          rw [hselb]
          simp only [Bool.false_eq_true, if_false]
          exact alGet_cons_self _ _ _

/-- C9 amended: on a single resolver instance, when the first text resolves
through the normal column-parsing path (not EXEC, no top-level union,
non-empty select clause — the paths that write the cache), resolving any
second text that is non-empty, differs from "N/A", and shares the first
200 characters returns exactly the ColumnMap computed for the first text,
regardless of how the texts differ beyond position 200.  Texts resolved
through the EXEC or union paths are not cached under their own key, and
the claim fails for them (see the counterexample). -/
theorem c9_cache_amended :
    ∀ (cache : ParseCache) (sql1 sql2 : Str),
      sql1 ≠ [] → sql1 ≠ "N/A".toList → sql2 ≠ [] → sql2 ≠ "N/A".toList →
      sql2.take 200 = sql1.take 200 →
      strStarts "EXEC".toList (pyStrip (pyToUpper (clean_sql_comments sql1))) = false →
      contains_union (extract_ctes (parse_sql_deep (sql1.length + 1)) cache
          (pyStrip (pyToUpper (clean_sql_comments sql1)))).1.2 = false →
      extract_select_clause
          (extract_derived_tables (parse_sql_deep (sql1.length + 1))
            (extract_ctes (parse_sql_deep (sql1.length + 1)) cache
              (pyStrip (pyToUpper (clean_sql_comments sql1)))).2
            (extract_ctes (parse_sql_deep (sql1.length + 1)) cache
              (pyStrip (pyToUpper (clean_sql_comments sql1)))).1.2).1.2 ≠ [] →
      (parse_sql_deep_run (parse_sql_deep_run cache sql1).2 sql2).1
        = (parse_sql_deep_run cache sql1).1 := by
  intro cache sql1 sql2 h1 h2 h3 h4 hpre hexec hunion hsel
  have hstore := parse_run_stores cache sql1 h1 h2 hexec hunion hsel
  show (parse_sql_deep_body (parse_sql_deep (sql2.length + 1))
      (parse_sql_deep_run cache sql1).2 sql2).1 = _
  unfold parse_sql_deep_body
  split
  · next hg =>
      exfalso
      rcases Bool.or_eq_true_iff.mp hg with hg | hg
      · exact h3 (by simpa using hg)
      · exact h4 (of_decide_eq_true hg)
  · next hg =>
      rw [hpre]
      simp only [hstore]

/-- First text of the C9 counterexample: a union statement longer than 200
characters. -/
def c9sqlU1 : Str :=
  "SELECT ".toList ++ List.replicate 83 'A' ++ " FROM T1 UNION SELECT ".toList
    ++ List.replicate 83 'A' ++ " FROM T2".toList

/-- Second text: identical in the first 200 characters, different final
branch table. -/
def c9sqlU2 : Str :=
  "SELECT ".toList ++ List.replicate 83 'A' ++ " FROM T1 UNION SELECT ".toList
    ++ List.replicate 83 'A' ++ " FROM T3".toList

set_option maxRecDepth 100000 in
/-- C9 counterexample: two distinct union texts sharing their first 200
characters.  The first resolves through `_parse_union`, which returns
without writing the cache, so the second is re-parsed and yields a
different ColumnMap — refuting the claim as stated. -/
theorem c9_counterexample :
    c9sqlU1 ≠ c9sqlU2
    ∧ c9sqlU1.take 200 = c9sqlU2.take 200
    ∧ (parse_sql_deep_run (parse_sql_deep_run [] c9sqlU1).2 c9sqlU2).1
        ≠ (parse_sql_deep_run [] c9sqlU1).1 := by
  exact ⟨by decide, by decide, by decide⟩

/-- First text of the C9 witness: a plain SELECT longer than 200 characters. -/
def c9sqlA : Str :=
  "SELECT ".toList ++ List.replicate 200 'A' ++ " FROM T1".toList

/-- Second text: same first 200 characters, different table. -/
def c9sqlB : Str :=
  "SELECT ".toList ++ List.replicate 200 'A' ++ " FROM T2".toList

set_option maxRecDepth 100000 in
/-- C9 witness: the second text inherits the first text's cached map (even
though its own FROM table differs beyond position 200). -/
theorem c9_witness :
    (parse_sql_deep_run (parse_sql_deep_run [] c9sqlA).2 c9sqlB).1
      = (parse_sql_deep_run [] c9sqlA).1 :=
  c9_cache_amended [] c9sqlA c9sqlB (by decide) (by decide) (by decide) (by decide)
    (by decide) (by decide) (by decide) (by decide)

/-! ## C5: the amended expression_type invariant -/

def TypeOK (e : ColumnProvenance) : Prop := e.expression_type ∈ modelTypes

def MapOK (m : ColumnMap) : Prop := ∀ p ∈ m, TypeOK p.2

def CacheOK (c : ParseCache) : Prop := ∀ q ∈ c, MapOK q.2

def ScopesOK (l : List (Str × ColumnMap)) : Prop := ∀ q ∈ l, MapOK q.2

theorem alGet_mem {α : Type} (m : List (Str × α)) (k : Str) (v : α)
    (h : alGet m k = some v) : ∃ p ∈ m, p.2 = v := by
  unfold alGet at h
  cases hf : m.find? (fun p => p.1 = k) with
  | none => rw [hf] at h; exact Option.noConfusion h
  | some p =>
      rw [hf] at h
      refine ⟨p, List.mem_of_find?_eq_some hf, ?_⟩
      simpa using h

theorem alSet_forall {α : Type} (P : α → Prop) (m : List (Str × α)) (k : Str) (v : α)
    (hm : ∀ p ∈ m, P p.2) (hv : P v) : ∀ p ∈ alSet m k v, P p.2 := by
  intro p hp
  unfold alSet at hp
  split at hp
  · rcases List.mem_map.mp hp with ⟨q, hq, hqe⟩
    by_cases hqk : q.1 = k
    · rw [if_pos hqk] at hqe
      rw [← hqe]
      exact hv
    · rw [if_neg hqk] at hqe
      rw [← hqe]
      exact hm q hq
  · rcases List.mem_append.mp hp with hp | hp
    · exact hm p hp
    · rcases List.mem_singleton.mp hp with rfl
      exact hv

theorem alMerge_forall {α : Type} (P : α → Prop) (a b : List (Str × α))
    (ha : ∀ p ∈ a, P p.2) (hb : ∀ p ∈ b, P p.2) : ∀ p ∈ alMerge a b, P p.2 := by
  unfold alMerge
  induction b generalizing a with
  | nil => exact ha
  | cons q rest ih =>
      rw [List.foldl_cons]
      exact ih (alSet a q.1 q.2)
        (alSet_forall P a q.1 q.2 ha (hb q (List.mem_cons_self _ _)))
        (fun p hp => hb p (List.mem_cons_of_mem _ hp))

theorem decompose_body_dtype_mem (dec : Str → List (Str × Str) → DecompResult)
    (e : Str) (ctx : List (Str × Str)) :
    (decompose_expression_body dec e ctx).dtype ∈ modelTypes := by
  unfold decompose_expression_body
  dsimp only
  repeat' split
  all_goals dsimp only
  all_goals decide

theorem decompose_dtype_mem (fuel : Nat) (e : Str) (ctx : List (Str × Str)) :
    (decompose_expression fuel e ctx).dtype ∈ modelTypes := by
  cases fuel with
  | zero =>
      show ({ dtype := "UNKNOWN".toList, dependencies := [],
              logic := pyToUpper (pyStrip e), source_tables := [],
              source_columns := [], function_name := none } : DecompResult).dtype ∈ modelTypes
      dsimp only
      decide
  | succ n => exact decompose_body_dtype_mem (decompose_expression n) e ctx

theorem mapOK_nil : MapOK [] := fun p hp => absurd hp (List.not_mem_nil p)

theorem scopesOK_nil : ScopesOK [] := fun q hq => absurd hq (List.not_mem_nil q)

theorem parse_column_token_type (tok : Str) (ta : List (Str × Str))
    (sm : List (Str × ColumnMap)) (a : Str) (e : ColumnProvenance)
    (h : parse_column_token tok ta sm = some (a, e)) : TypeOK e := by
  unfold parse_column_token at h
  split at h
  · exact Option.noConfusion h
  · simp only [Option.some.injEq, Prod.mk.injEq] at h
    obtain ⟨-, he⟩ := h
    rw [← he]
    exact decompose_dtype_mem _ _ _

theorem token_fold_ok (ta : List (Str × Str)) (sm : List (Str × ColumnMap))
    (toks : List Str) :
    ∀ init : ColumnMap, MapOK init →
      MapOK (toks.foldl (fun (m : ColumnMap) tok =>
        match parse_column_token tok ta sm with
        | some (a, e) => alSet m a e
        | none => m) init) := by
  induction toks with
  | nil => intro init hi; exact hi
  | cons t rest ih =>
      intro init hi
      rw [List.foldl_cons]
      apply ih
      cases hpt : parse_column_token t ta sm with
      | none => exact hi
      | some pr =>
          obtain ⟨a, e⟩ := pr
          exact alSet_forall TypeOK init a e hi (parse_column_token_type t ta sm a e hpt)

theorem star_filter_fold_ok (sub : ColumnMap) :
    ∀ init : ColumnMap, MapOK sub → MapOK init →
      MapOK (sub.foldl
        (fun (r : ColumnMap) p => if p.1 = "*".toList then r else alSet r p.1 p.2) init) := by
  induction sub with
  | nil => intro init _ hi; exact hi
  | cons q rest ih =>
      intro init hs hi
      rw [List.foldl_cons]
      apply ih _ (fun p hp => hs p (List.mem_cons_of_mem _ hp))
      by_cases hq : q.1 = "*".toList
      · rw [if_pos hq]; exact hi
      · rw [if_neg hq]
        exact alSet_forall TypeOK init q.1 q.2 hi (hs q (List.mem_cons_self _ _))

theorem wildcard_singleton_ok (table_name : Str) :
    MapOK [("*".toList,
      { source_table := table_name, source_column := "*".toList,
        expression := "SELECT *".toList, expression_type := "WILDCARD".toList,
        dependencies := [],
        logic_breakdown := "All columns from ".toList ++ table_name })] := by
  intro p hp
  have hp1 := List.mem_singleton.mp hp
  rw [hp1]
  show "WILDCARD".toList ∈ modelTypes
  decide

theorem star_result_ok (sm : List (Str × ColumnMap)) (hs : ScopesOK sm) (key : Str) :
    MapOK (match alGet sm key with
      | some sub =>
          sub.foldl (fun r p => if p.1 = "*".toList then r else alSet r p.1 p.2) []
      | none => []) := by
  cases hget : alGet sm key with
  | none => exact mapOK_nil
  | some sub =>
      obtain ⟨q, hq, hq2⟩ := alGet_mem sm key sub hget
      exact star_filter_fold_ok sub [] (hq2 ▸ hs q hq) mapOK_nil

theorem expand_select_star_ok (ta : List (Str × Str)) (sm : List (Str × ColumnMap))
    (hs : ScopesOK sm) : MapOK (expand_select_star ta sm) := by
  unfold expand_select_star
  split
  · -- single table name
    dsimp only
    split
    · -- SUBQUERY:: prefix branch
      split
      · exact wildcard_singleton_ok _
      · exact star_result_ok sm hs _
    · split
      · exact wildcard_singleton_ok _
      · exact star_result_ok sm hs _
  · exact mapOK_nil

def ParseOK (parse : ParseCache → Str → ColumnMap × ParseCache) : Prop :=
  ∀ cache sql, CacheOK cache → MapOK (parse cache sql).1 ∧ CacheOK (parse cache sql).2

theorem cteLoop_ok (parse : ParseCache → Str → ColumnMap × ParseCache)
    (hp : ParseOK parse) (sec : Str) (fuel : Nat) :
    ∀ (pos : Nat) (acc : List (Str × ColumnMap)) (cache : ParseCache),
      ScopesOK acc → CacheOK cache →
      ScopesOK (cteLoop parse sec fuel pos acc cache).1 ∧
        CacheOK (cteLoop parse sec fuel pos acc cache).2 := by
  induction fuel with
  | zero => intro pos acc cache ha hc; exact ⟨ha, hc⟩
  | succ n ih =>
      intro pos acc cache ha hc
      rw [cteLoop]
      split
      · exact ⟨ha, hc⟩
      · split
        · exact ⟨ha, hc⟩
        · dsimp only
          split
          · exact ih _ _ _ ha hc
          · exact ih _ _ _
              (alSet_forall MapOK acc _ _ ha (hp cache _ hc).1)
              (hp cache _ hc).2

theorem extract_ctes_ok (parse : ParseCache → Str → ColumnMap × ParseCache)
    (hp : ParseOK parse) (cache : ParseCache) (sql0 : Str) (hc : CacheOK cache) :
    ScopesOK (extract_ctes parse cache sql0).1.1 ∧
      CacheOK (extract_ctes parse cache sql0).2 := by
  unfold extract_ctes
  dsimp only
  split
  · exact ⟨scopesOK_nil, hc⟩
  · split
    · exact ⟨scopesOK_nil, hc⟩
    · dsimp only
      exact ⟨(cteLoop_ok parse hp _ _ _ _ _ scopesOK_nil hc).1,
             (cteLoop_ok parse hp _ _ _ _ _ scopesOK_nil hc).2⟩

theorem edtLoop_ok (parse : ParseCache → Str → ColumnMap × ParseCache)
    (hp : ParseOK parse) (fuel : Nat) :
    ∀ (maps : List (Str × ColumnMap)) (masked : Str) (cache : ParseCache),
      ScopesOK maps → CacheOK cache →
      ScopesOK (edtLoop parse fuel maps masked cache).1.1 ∧
        CacheOK (edtLoop parse fuel maps masked cache).2 := by
  induction fuel with
  | zero => intro maps masked cache hm hc; exact ⟨hm, hc⟩
  | succ n ih =>
      intro maps masked cache hm hc
      rw [edtLoop]
      split
      · exact ⟨hm, hc⟩
      · dsimp only
        split
        · exact ⟨hm, hc⟩
        · split
          · exact ih _ _ _
              (alSet_forall MapOK maps _ _ hm (hp cache _ hc).1)
              (hp cache _ hc).2
          · exact ih _ _ _ hm hc

theorem extract_derived_tables_ok (parse : ParseCache → Str → ColumnMap × ParseCache)
    (hp : ParseOK parse) (cache : ParseCache) (sql : Str) (hc : CacheOK cache) :
    ScopesOK (extract_derived_tables parse cache sql).1.1 ∧
      CacheOK (extract_derived_tables parse cache sql).2 :=
  edtLoop_ok parse hp 20 [] sql cache scopesOK_nil hc

theorem parse_fold_cache_ok (parse : ParseCache → Str → ColumnMap × ParseCache)
    (hp : ParseOK parse) (branches : List Str) :
    ∀ acc : List ColumnMap × ParseCache, CacheOK acc.2 →
      CacheOK ((branches.foldl
        (fun (acc : List ColumnMap × ParseCache) b =>
          let pr := parse acc.2 b
          (acc.1 ++ [pr.1], pr.2)) acc)).2 := by
  induction branches with
  | nil => intro acc h; exact h
  | cons b rest ih =>
      intro acc h
      rw [List.foldl_cons]
      exact ih _ (hp acc.2 b h).2

theorem union_merge_fold_ok (branch_results : List ColumnMap) (fb : ColumnMap) :
    ∀ init : ColumnMap, MapOK init →
      MapOK (fb.foldl (fun (m : ColumnMap) p =>
        let col_alias := p.1
        let col_data := p.2
        let all_sources := branch_results.filterMap
            (fun b2 => (alGet b2 col_alias).map (fun e => e.source_table))
        let all_source_cols := branch_results.filterMap
            (fun b2 => (alGet b2 col_alias).map (fun e => e.source_column))
        alSet m col_alias
          { source_table :=
              joinStr " UNION ".toList (all_sources.filter (fun x => x ≠ "N/A".toList)),
            source_column := joinStr " UNION ".toList (pySetOf all_source_cols),
            expression := col_data.expression,
            expression_type := "UNION".toList,
            dependencies := col_data.dependencies,
            logic_breakdown :=
              "UNION of ".toList ++ (Nat.repr branch_results.length).toList ++
                " branches".toList }) init) := by
  induction fb with
  | nil => intro init hi; exact hi
  | cons q rest ih =>
      intro init hi
      rw [List.foldl_cons]
      apply ih
      exact alSet_forall TypeOK init _ _ hi
        (show "UNION".toList ∈ modelTypes by decide)

theorem parse_union_ok (parse : ParseCache → Str → ColumnMap × ParseCache)
    (hp : ParseOK parse) (cache : ParseCache) (sql : Str)
    (cm : List (Str × ColumnMap)) (hc : CacheOK cache) :
    MapOK (parse_union parse cache sql cm).1 ∧
      CacheOK (parse_union parse cache sql cm).2 := by
  unfold parse_union
  dsimp only
  split
  · exact ⟨mapOK_nil, parse_fold_cache_ok parse hp _ _ hc⟩
  · exact ⟨union_merge_fold_ok _ _ [] mapOK_nil,
           parse_fold_cache_ok parse hp _ _ hc⟩

theorem cacheOK_store (cache : ParseCache) (k : Str) (v : ColumnMap)
    (hc : CacheOK cache) (hv : MapOK v) : CacheOK (cacheStore cache k v) := by
  intro q hq
  rcases List.mem_cons.mp hq with h | h
  · rw [h]; exact hv
  · exact hc q h

theorem alSet_fold_ok (src : ColumnMap) :
    ∀ init : ColumnMap, MapOK src → MapOK init →
      MapOK (src.foldl (fun (m : ColumnMap) p => alSet m p.1 p.2) init) := by
  induction src with
  | nil => intro init _ hi; exact hi
  | cons q rest ih =>
      intro init hs hi
      rw [List.foldl_cons]
      exact ih _ (fun p hp2 => hs p (List.mem_cons_of_mem _ hp2))
        (alSet_forall TypeOK init q.1 q.2 hi (hs q (List.mem_cons_self _ _)))

theorem body_final_ok (cache2 : ParseCache) (k : Str) (cm : ColumnMap)
    (hc2 : CacheOK cache2) (hm : MapOK cm) :
    MapOK (cm, cacheStore cache2 k cm).1 ∧ CacheOK (cm, cacheStore cache2 k cm).2 :=
  ⟨hm, cacheOK_store cache2 k cm hc2 hm⟩

theorem parse_body_ok (parse : ParseCache → Str → ColumnMap × ParseCache)
    (hp : ParseOK parse) (cache : ParseCache) (sql : Str) (hc : CacheOK cache) :
    MapOK (parse_sql_deep_body parse cache sql).1 ∧
      CacheOK (parse_sql_deep_body parse cache sql).2 := by
  unfold parse_sql_deep_body
  split
  · exact ⟨mapOK_nil, hc⟩
  · dsimp only
    split
    · -- cache hit
      rename_i m hget
      obtain ⟨q, hq, hq2⟩ := alGet_mem cache _ m hget
      exact ⟨hq2 ▸ hc q hq, hc⟩
    · split
      · -- EXEC branch
        refine ⟨?_, hc⟩
        intro p hp2
        have hp1 := List.mem_singleton.mp hp2
        rw [hp1]
        show "PROCEDURE".toList ∈ modelTypes
        decide
      · -- main path
        split
        · -- top-level UNION
          exact parse_union_ok parse hp _ _ _
            (extract_ctes_ok parse hp cache _ hc).2
        · -- derived tables then select clause
          split
          · exact ⟨mapOK_nil,
              (extract_derived_tables_ok parse hp _ _
                (extract_ctes_ok parse hp cache _ hc).2).2⟩
          · split
            · exact body_final_ok _ _ _
                (extract_derived_tables_ok parse hp _ _
                  (extract_ctes_ok parse hp cache _ hc).2).2
                (alSet_fold_ok _ _
                  (expand_select_star_ok _ _
                    (alMerge_forall MapOK _ _
                      (extract_ctes_ok parse hp cache _ hc).1
                      (extract_derived_tables_ok parse hp _ _
                        (extract_ctes_ok parse hp cache _ hc).2).1))
                  (token_fold_ok _ _ _ [] mapOK_nil))
            · exact body_final_ok _ _ _
                (extract_derived_tables_ok parse hp _ _
                  (extract_ctes_ok parse hp cache _ hc).2).2
                (token_fold_ok _ _ _ [] mapOK_nil)

theorem parse_sql_deep_ok (fuel : Nat) : ParseOK (parse_sql_deep fuel) := by
  induction fuel with
  | zero =>
      intro cache sql hc
      exact ⟨mapOK_nil, hc⟩
  | succ n ih =>
      intro cache sql hc
      exact parse_body_ok (parse_sql_deep n) ih cache sql hc

/-- C5 amended: every provenance entry produced by deep statement resolution
(on a fresh resolver instance) carries an `expression_type` drawn from the
spec's eight labels *plus* `UNKNOWN`: the nine-element `modelTypes`. -/
theorem c5_expression_types_amended (sql : Str) :
    ((parse_sql_deep_run [] sql).1.all
      (fun p => modelTypes.contains p.2.expression_type)) = true := by
  rw [List.all_eq_true]
  intro p hp
  have h : p.2.expression_type ∈ modelTypes :=
    (parse_sql_deep_ok (sql.length + 2) [] sql
      (fun q hq => absurd hq (List.not_mem_nil q))).1 p hp
  simpa using h

/-- A statement with `n` nested derived tables around `SELECT A FROM T`. -/
def nestedSql : Nat → Str
  | 0 => "SELECT A FROM T".toList
  | n + 1 => "SELECT A FROM (".toList ++ nestedSql n ++ ") X".toList

set_option maxRecDepth 1000000 in
set_option maxHeartbeats 4000000 in
/-- C4: there is no depth ceiling on scope-extraction recursion and no
bounded `MalformedStructure` failure: a statement with 5 nested derived
tables resolves completely normally (to `A ↦ T`, type `COLUMN`), while
capping the recursion budget at 5 scopes changes the answer — the walk
really descends one scope per nesting level, so recursion depth grows
without bound in the nesting depth of the input. -/
theorem c4_no_depth_ceiling :
    ((parse_sql_deep_run [] (nestedSql 5)).1.map
        (fun p => (p.1, p.2.source_table, p.2.expression_type))
      = [("A".toList, "T".toList, "COLUMN".toList)]) ∧
    ((parse_sql_deep 5 [] (nestedSql 5)).1.map
        (fun p => (p.1, p.2.source_table, p.2.expression_type))
      = [("A".toList, "Ambiguous".toList, "COLUMN".toList)]) := ⟨rfl, rfl⟩
